import Mathlib

/-!
# Detection post-processing of `go-object-detect-from-image`

A shallow embedding of the post-processing code of `main.go` and `detect.go`:
the threshold loop over the detector's parallel arrays, the mapping of a
normalised box to pixel coordinates, the caption text, the caption colour
lookup and the rectangle stroke `drawRect`.

Conventions of the embedding.

* Go `int` is the 64-bit `int64`, held in an `Int`; the increment of the
  loop variable of `drawRect` wraps around at `2^63 - 1` (`wrapInt64`).
  Slice indices and the conversion `int(x)` stay far below `2^63` and are
  not wrapped.
* A finite `float32` or `float64` value is the rational number it denotes.
  Widening `float64(x)` of a `float32` is the identity.  Every rounding
  operation of the source (`float32` product, `float64` product and sum,
  `float64(int)`) is an exact rational operation followed by `roundToPrec`
  with 24 or 53 bits of precision (round to nearest, ties to even, exponent
  range unbounded).  NaN and infinities are not represented.
* Indexing a slice out of range is the Go run-time panic; functions that
  index return `Except Panic`.
* Loops take a fuel argument and return `none` when it runs out; `some` is
  an actual outcome of the program (a value or a panic).  A computation
  that is `none` for every fuel does not terminate.
-/

namespace ObjectDetect

/-! ## Go run-time: slices and panics -/

/-- The run-time panic `index out of range [index] with length len`. -/
inductive Panic where
  | indexOutOfRange (index : Int) (len : Nat)
  deriving DecidableEq, Repr

/-- Go slice indexing `xs[i]` for an `int` index. -/
def sliceIndex {α : Type} (xs : List α) (i : Int) : Except Panic α :=
  if 0 ≤ i then
    match xs[i.toNat]? with
    | some x => .ok x
    | none => .error (.indexOutOfRange i xs.length)
  else .error (.indexOutOfRange i xs.length)

/-! ## Floating point -/

/-- Finite `float32` values, as the rationals they denote. -/
abbrev F32 := ℚ

/-- Finite `float64` values, as the rationals they denote. -/
abbrev F64 := ℚ

/-- Round a rational to the nearest integer, ties to the even integer. -/
def roundHalfEven (x : ℚ) : Int :=
  if x - ⌊x⌋ < 1 / 2 then ⌊x⌋
  else if 1 / 2 < x - ⌊x⌋ then ⌊x⌋ + 1
  else if ⌊x⌋ % 2 = 0 then ⌊x⌋ else ⌊x⌋ + 1

/-- Round a rational to `p` significant bits, to nearest, ties to even
(IEEE 754 `roundTiesToEven` with an unbounded exponent). -/
def roundToPrec (p : Nat) (x : ℚ) : ℚ :=
  if x = 0 then 0
  else (roundHalfEven (x / 2 ^ (Int.log 2 |x| - ((p : Int) - 1))) : ℚ)
    * 2 ^ (Int.log 2 |x| - ((p : Int) - 1))

/-- Conversion of a real constant or value to `float32`. -/
def toFloat32 (x : ℚ) : F32 := roundToPrec 24 x

/-- Conversion of a real constant or value to `float64`. -/
def toFloat64 (x : ℚ) : F64 := roundToPrec 53 x

/-- The `float32` product `a * b`. -/
def F32.mul (a b : F32) : F32 := toFloat32 (a * b)

/-- The `float64` product `a * b`. -/
def F64.mul (a b : F64) : F64 := toFloat64 (a * b)

/-- The `float64` sum `a + b`. -/
def F64.add (a b : F64) : F64 := toFloat64 (a + b)

/-- The conversion `float64(n)` of an `int`. -/
def F64.ofInt (n : Int) : F64 := toFloat64 (n : ℚ)

/-- The conversion `int(x)` of a floating-point value: truncation toward zero. -/
def toInt (x : ℚ) : Int := if 0 ≤ x then ⌊x⌋ else ⌈x⌉

/-! ## `image` and `image/color` -/

/-- Go `image.Point`. -/
structure Point where
  X : Int
  Y : Int
  deriving DecidableEq, Repr

/-- Go `image.Rectangle`: `Min` inclusive, `Max` exclusive. -/
structure Rectangle where
  Min : Point
  Max : Point
  deriving DecidableEq, Repr

/-- Go `image.Pt`. -/
def Pt (x y : Int) : Point := ⟨x, y⟩

/-- Go `image.Rect`: the coordinates are swapped where needed so that the
rectangle is well-formed. -/
def Rect (x0 y0 x1 y1 : Int) : Rectangle :=
  ⟨⟨if x0 > x1 then x1 else x0, if y0 > y1 then y1 else y0⟩,
   ⟨if x0 > x1 then x0 else x1, if y0 > y1 then y0 else y1⟩⟩

/-- Go `Rectangle.Dx`. -/
def Rectangle.Dx (r : Rectangle) : Int := r.Max.X - r.Min.X

/-- Go `Rectangle.Dy`. -/
def Rectangle.Dy (r : Rectangle) : Int := r.Max.Y - r.Min.Y

/-- Go `Point.In`. -/
def Point.In (p : Point) (r : Rectangle) : Bool :=
  decide (r.Min.X ≤ p.X) && decide (p.X < r.Max.X) &&
    decide (r.Min.Y ≤ p.Y) && decide (p.Y < r.Max.Y)

/-- Go `color.RGBA` (four `uint8` channels). -/
structure RGBA where
  R : Nat
  G : Nat
  B : Nat
  A : Nat
  deriving DecidableEq, Repr

/-- Go `*image.RGBA`: the bounds and the pixel stored at each point. -/
structure ImageRGBA where
  Rect : Rectangle
  Pix : Int → Int → RGBA

/-- Go `(*image.RGBA).Set` with a `color.RGBA` colour: a point outside the
bounds is ignored. -/
def ImageRGBA.Set (img : ImageRGBA) (x y : Int) (c : RGBA) : ImageRGBA :=
  if (Point.mk x y).In img.Rect then
    { img with Pix := fun x' y' => if x' = x ∧ y' = y then c else img.Pix x' y' }
  else img

/-- Go `math.MaxInt64`, the largest `int`. -/
def maxInt64 : Int := 2 ^ 63 - 1

/-- The value of an `int64` expression whose mathematical value is `n`:
two's-complement wrap-around. -/
def wrapInt64 (n : Int) : Int := (n + 2 ^ 63) % 2 ^ 64 - 2 ^ 63

/-- The loop `for v := lo; v <= hi; v++ { img = step(img, v) }` on `int64`,
started at `v` with the canvas `img`; `none` when the fuel runs out. -/
def countLoop (step : ImageRGBA → Int → ImageRGBA) (hi : Int) :
    Nat → Int → ImageRGBA → Option ImageRGBA
  | 0, _, _ => none
  | fuel + 1, v, img =>
    if v ≤ hi then countLoop step hi fuel (wrapInt64 (v + 1)) (step img v)
    else some img

/-- The function `drawRect` of `main.go` and `detect.go`: the loop over `x`
setting the rows `r.Min.Y` and `r.Max.Y`, then the loop over `y` setting the
columns `r.Min.X` and `r.Max.X`; each loop has `fuel` iterations at most. -/
def drawRect (fuel : Nat) (img : ImageRGBA) (r : Rectangle) (c : RGBA) :
    Option ImageRGBA :=
  match countLoop (fun im x => (im.Set x r.Min.Y c).Set x r.Max.Y c) r.Max.X fuel r.Min.X img with
  | none => none
  | some img1 =>
    countLoop (fun im y => (im.Set r.Min.X y c).Set r.Max.X y c) r.Max.Y fuel r.Min.Y img1

/-- The package `colornames`: the slice `Names` and the map `Map` (a missing
key reads as the zero colour, which `Map` as a total function covers). -/
structure Colornames where
  Names : List String
  Map : String → RGBA

/-- The first three entries of the table of `colornames` (`aliceblue`,
`antiquewhite`, `aqua`), for the worked examples. -/
def colornamesHead : Colornames :=
  ⟨["aliceblue", "antiquewhite", "aqua"],
   fun name =>
    if name = "aliceblue" then ⟨240, 248, 255, 255⟩
    else if name = "antiquewhite" then ⟨250, 235, 215, 255⟩
    else if name = "aqua" then ⟨0, 255, 255, 255⟩
    else ⟨0, 0, 0, 0⟩⟩

/-! ## `fmt` -/

/-- The verb `%W.0f`: the value rounded to an integer (ties to even), in
decimal, padded with spaces on the left up to `width` characters. -/
def fmtFixed0 (width : Nat) (v : ℚ) : String :=
  let digits := Nat.repr (roundHalfEven |v|).toNat
  let s := if v < 0 then "-" ++ digits else digits
  String.mk (List.replicate (width - s.length) ' ') ++ s

/-! ## The threshold loop -/

/-- The loop `i := 0; for cond(i) { body(i); i++ }` started at index `i`
with state `st`; `none` when the fuel runs out or when a body does not
return. -/
def forLoop {σ : Type} (cond : Nat → Except Panic Bool)
    (body : Nat → σ → Option (Except Panic σ)) :
    Nat → Nat → σ → Option (Except Panic σ)
  | 0, _, _ => none
  | fuel + 1, i, st =>
    match cond i with
    | .error e => some (.error e)
    | .ok false => some (.ok st)
    | .ok true =>
      match body i st with
      | none => none
      | some (.error e) => some (.error e)
      | some (.ok st1) => forLoop cond body fuel (i + 1) st1

/-- The bodies of the iterations `is` run one after the other from the
state `st`: `none` as soon as one does not return, a panic as soon as one
panics. -/
def runBodies {σ : Type} (body : Nat → σ → Option (Except Panic σ)) :
    List Nat → σ → Option (Except Panic σ)
  | [], st => some (.ok st)
  | i :: rest, st =>
    match body i st with
    | none => none
    | some (.error e) => some (.error e)
    | some (.ok st1) => runBodies body rest st1

/-- The loop condition `float64(probabilities[i]) > probability` of `main.go`. -/
def scoreCond (probability : F64) (probabilities : List F32) (i : Nat) :
    Except Panic Bool := do
  let p ← sliceIndex probabilities i
  pure (decide (p > probability))

/-- The loop `i := 0; for float64(probabilities[i]) > probability { body; i++ }`
of `main.go`.  Each iteration advances `i` and `probabilities[len]` panics,
so the `len + 1` iterations of fuel are never used up: the loop is `none`
only when a body does not return. -/
def detectionLoop {σ : Type} (probability : F64) (probabilities : List F32)
    (body : Nat → σ → Option (Except Panic σ)) (init : σ) :
    Option (Except Panic σ) :=
  forLoop (scoreCond probability probabilities) body (probabilities.length + 1) 0 init

/-- The indices for which the loop body runs: the loop with a body that only
records `i`. -/
def selected (probability : F64) (probabilities : List F32) :
    Option (Except Panic (List Nat)) :=
  detectionLoop probability probabilities (fun i acc => some (.ok (acc ++ [i]))) []

/-! ## JSON mode of `main.go` -/

/-- The struct `jsonResult`. -/
structure jsonResult where
  Name : String
  Probability : F64
  deriving DecidableEq, Repr

/-- The body of the JSON loop: `idx := int(classes[i])` and the append of
`jsonResult{labels[idx], float64(probabilities[i])}`. -/
def jsonBody (probabilities classes : List F32) (labels : List String)
    (i : Nat) (result : List jsonResult) : Except Panic (List jsonResult) := do
  let c ← sliceIndex classes i
  let idx := toInt c
  let name ← sliceIndex labels idx
  let p ← sliceIndex probabilities i
  pure (result ++ [⟨name, p⟩])

/-- The JSON branch of `main`: the report handed to the encoder. -/
def jsonReport (probability : F64) (probabilities classes : List F32)
    (labels : List String) : Option (Except Panic (List jsonResult)) :=
  detectionLoop probability probabilities
    (fun i result => some (jsonBody probabilities classes labels i result)) []

/-! ## Image mode -/

/-- One pixel coordinate: `int(float64(min) + float64(extent)*float64(v))`. -/
def pixelCoord (min extent : Int) (v : F32) : Int :=
  toInt (F64.add (F64.ofInt min) (F64.mul (F64.ofInt extent) v))

/-- The four pixel coordinates of a box, as passed to `image.Rect`. -/
structure PixelBox where
  x1 : Int
  y1 : Int
  x2 : Int
  y2 : Int
  deriving DecidableEq, Repr

/-- The coordinate computation of the image loop (`y1, x1, y2, x2` from
`boxes[i][0..3]`). -/
def mapBox (bounds : Rectangle) (box : List F32) : Except Panic PixelBox := do
  let b0 ← sliceIndex box 0
  let y1 := pixelCoord bounds.Min.Y bounds.Dy b0
  let b1 ← sliceIndex box 1
  let x1 := pixelCoord bounds.Min.X bounds.Dx b1
  let b2 ← sliceIndex box 2
  let y2 := pixelCoord bounds.Min.Y bounds.Dy b2
  let b3 ← sliceIndex box 3
  let x2 := pixelCoord bounds.Min.X bounds.Dx b3
  pure ⟨x1, y1, x2, y2⟩

/-- The colour expression `colornames.Map[colornames.Names[idx]]`. -/
def captionColour (cn : Colornames) (idx : Int) : Except Panic RGBA := do
  let name ← sliceIndex cn.Names idx
  pure (cn.Map name)

/-- The caption of `main.go`:
`fmt.Sprintf("%s (%3.0f%%)", label, p*100.0)` with `p` a `float32`. -/
def mainCaption (label : String) (p : F32) : String :=
  label ++ " (" ++ fmtFixed0 3 (F32.mul p 100) ++ "%)"

/-- The caption of `detect.go`:
`fmt.Sprintf("%s (%2.0f%%)", label, p*100.0)` with `p` a `float32`. -/
def detectCaption (label : String) (p : F32) : String :=
  label ++ " (" ++ fmtFixed0 2 (F32.mul p 100) ++ "%)"

/-- What one iteration of an image loop draws. -/
structure Overlay where
  box : PixelBox
  colour : RGBA
  caption : String
  deriving DecidableEq, Repr

/-- The values computed by iteration `i` of the image loop of `main.go`, in
the order the source evaluates them. -/
def mainOverlay (cn : Colornames) (probabilities classes : List F32)
    (boxes : List (List F32)) (labels : List String) (bounds : Rectangle)
    (i : Nat) : Except Panic Overlay := do
  let c ← sliceIndex classes i
  let idx := toInt c
  let box ← sliceIndex boxes i
  let pb ← mapBox bounds box
  let colour ← captionColour cn idx
  let label ← sliceIndex labels idx
  let p ← sliceIndex probabilities i
  pure ⟨pb, colour, mainCaption label p⟩

/-- The values computed by iteration `i` of the loop of `detect.go`; the
score of the caption is read at `probabilities[idx]`. -/
def detectOverlay (cn : Colornames) (probabilities classes : List F32)
    (boxes : List (List F32)) (labels : List String) (bounds : Rectangle)
    (i : Nat) : Except Panic Overlay := do
  let c ← sliceIndex classes i
  let idx := toInt c
  let box ← sliceIndex boxes i
  let pb ← mapBox bounds box
  let colour ← captionColour cn idx
  let label ← sliceIndex labels idx
  let p ← sliceIndex probabilities idx
  pure ⟨pb, colour, detectCaption label p⟩

/-- The stroke colour `color.RGBA{255, 0, 0, 0}` of both programs. -/
def strokeColour : RGBA := ⟨255, 0, 0, 0⟩

/-- The body of the image loop of `main.go`, in source order: the class
index and the four coordinates (a panic of `classes[i]` or `boxes[i][..]`
comes first), then `drawRect` on `image.Rect(x1, y1, x2, y2)` (nothing
follows when it does not return), then the colour, label and score lookups
and the caption drawn at `image.Pt(x1, y1)`.  The glyph rasteriser of
`font.Drawer` is the parameter `drawString`; `fuel` bounds each loop of
`drawRect`. -/
def imageBody (drawString : ImageRGBA → Point → RGBA → String → ImageRGBA)
    (cn : Colornames) (fuel : Nat) (probabilities classes : List F32)
    (boxes : List (List F32)) (labels : List String) (bounds : Rectangle)
    (i : Nat) (canvas : ImageRGBA) : Option (Except Panic ImageRGBA) :=
  match (do
      let c ← sliceIndex classes i
      let box ← sliceIndex boxes i
      let pb ← mapBox bounds box
      pure (toInt c, pb) : Except Panic (Int × PixelBox)) with
  | .error e => some (.error e)
  | .ok (idx, pb) =>
    match drawRect fuel canvas (Rect pb.x1 pb.y1 pb.x2 pb.y2) strokeColour with
    | none => none
    | some cv => some (do
        let colour ← captionColour cn idx
        let label ← sliceIndex labels idx
        let p ← sliceIndex probabilities i
        pure (drawString cv (Pt pb.x1 pb.y1) colour (mainCaption label p)))

/-- The body of the loop of `detect.go`, in source order; the score of the
caption is read at `probabilities[idx]`. -/
def detectBody (drawString : ImageRGBA → Point → RGBA → String → ImageRGBA)
    (cn : Colornames) (fuel : Nat) (probabilities classes : List F32)
    (boxes : List (List F32)) (labels : List String) (bounds : Rectangle)
    (i : Nat) (canvas : ImageRGBA) : Option (Except Panic ImageRGBA) :=
  match (do
      let c ← sliceIndex classes i
      let box ← sliceIndex boxes i
      let pb ← mapBox bounds box
      pure (toInt c, pb) : Except Panic (Int × PixelBox)) with
  | .error e => some (.error e)
  | .ok (idx, pb) =>
    match drawRect fuel canvas (Rect pb.x1 pb.y1 pb.x2 pb.y2) strokeColour with
    | none => none
    | some cv => some (do
        let colour ← captionColour cn idx
        let label ← sliceIndex labels idx
        let p ← sliceIndex probabilities idx
        pure (drawString cv (Pt pb.x1 pb.y1) colour (detectCaption label p)))

/-- The image branch of `main` in `main.go`: the canvas handed to the JPEG
encoder. -/
def imageCanvas (drawString : ImageRGBA → Point → RGBA → String → ImageRGBA)
    (cn : Colornames) (fuel : Nat) (probability : F64)
    (probabilities classes : List F32) (boxes : List (List F32))
    (labels : List String) (bounds : Rectangle) (canvas : ImageRGBA) :
    Option (Except Panic ImageRGBA) :=
  detectionLoop probability probabilities
    (imageBody drawString cn fuel probabilities classes boxes labels bounds) canvas

/-- The loop of `detect.go`: the threshold is the `float32` constant `0.4`. -/
def detectCanvas (drawString : ImageRGBA → Point → RGBA → String → ImageRGBA)
    (cn : Colornames) (fuel : Nat) (probabilities classes : List F32)
    (boxes : List (List F32)) (labels : List String) (bounds : Rectangle)
    (canvas : ImageRGBA) : Option (Except Panic ImageRGBA) :=
  detectionLoop (toFloat32 (2 / 5)) probabilities
    (detectBody drawString cn fuel probabilities classes boxes labels bounds) canvas

/-! ## The full filter of the specification -/

/-- The full filter the specification compares the scan with: all indices
whose score exceeds the threshold, in order. -/
def fullFilter (t : ℚ) (scores : List ℚ) : List Nat :=
  (List.range scores.length).filter
    (fun i => match scores[i]? with
      | some s => decide (s > t)
      | none => false)

/-! ## The threshold loop: which iterations run -/

theorem sliceIndex_nat_lt {α : Type} (xs : List α) (i : Nat) (h : i < xs.length) :
    sliceIndex xs (i : Int) = .ok xs[i] := by
  simp [sliceIndex, List.getElem?_eq_getElem h]

theorem sliceIndex_nat_ge {α : Type} (xs : List α) (i : Nat) (h : xs.length ≤ i) :
    sliceIndex xs (i : Int) = .error (.indexOutOfRange i xs.length) := by
  simp [sliceIndex, List.getElem?_eq_none h]

theorem sliceIndex_of_getElem? {α : Type} (xs : List α) (i : Nat) (x : α)
    (h : xs[i]? = some x) : sliceIndex xs (i : Int) = .ok x := by
  simp [sliceIndex, h]

theorem scoreCond_of_getElem? (t : ℚ) (scores : List ℚ) (i : Nat) (s : ℚ)
    (h : scores[i]? = some s) : scoreCond t scores i = .ok (decide (s > t)) := by
  simp only [scoreCond, sliceIndex_of_getElem? scores i s h]
  rfl

theorem scoreCond_of_length_le (t : ℚ) (scores : List ℚ) (i : Nat)
    (h : scores.length ≤ i) :
    scoreCond t scores i = .error (.indexOutOfRange i scores.length) := by
  simp only [scoreCond, sliceIndex_nat_ge scores i h]
  rfl

/-- Bodies that always return: the run is the monadic fold. -/
theorem runBodies_total {σ : Type} (body : Nat → σ → Except Panic σ) (l : List Nat) :
    ∀ st : σ, runBodies (fun i s => some (body i s)) l st
      = some (l.foldlM (fun s j => body j s) st) := by
  induction l with
  | nil => intro st; rfl
  | cons i rest ih =>
    intro st
    rw [List.foldlM_cons]
    simp only [runBodies]
    cases hb : body i st with
    | error e => rfl
    | ok st1 => exact ih st1

/-- The loop runs the body on `i, ..., i+n-1` in order when the condition
holds there and fails to hold at `i+n`. -/
theorem forLoop_stops {σ : Type} (cond : Nat → Except Panic Bool)
    (body : Nat → σ → Option (Except Panic σ)) (n : Nat) :
    ∀ (i : Nat) (st : σ) (fuel : Nat), n < fuel →
      (∀ j, i ≤ j → j < i + n → cond j = .ok true) → cond (i + n) = .ok false →
      forLoop cond body fuel i st = runBodies body (List.range' i n) st := by
  induction n with
  | zero =>
    intro i st fuel hf _ hstop
    obtain ⟨f, rfl⟩ : ∃ f, fuel = f + 1 := ⟨fuel - 1, by omega⟩
    simp only [Nat.add_zero] at hstop
    simp [forLoop, hstop, runBodies]
  | succ n ih =>
    intro i st fuel hf htrue hstop
    obtain ⟨f, rfl⟩ : ∃ f, fuel = f + 1 := ⟨fuel - 1, by omega⟩
    have hi : cond i = .ok true := htrue i (le_refl _) (by omega)
    rw [List.range'_succ]
    simp only [forLoop, hi, runBodies]
    cases hb : body i st with
    | none => rfl
    | some r =>
      cases r with
      | error e => rfl
      | ok st1 =>
        simp only []
        apply ih (i + 1) st1 f (by omega)
        · intro j h1 h2
          exact htrue j (by omega) (by omega)
        · rw [← hstop]; congr 1; omega

/-- The loop panics after running the body on `i, ..., i+n-1` when the
condition holds there and panics at `i+n`. -/
theorem forLoop_panics {σ : Type} (cond : Nat → Except Panic Bool)
    (body : Nat → σ → Option (Except Panic σ)) (e : Panic) (n : Nat) :
    ∀ (i : Nat) (st : σ) (fuel : Nat), n < fuel →
      (∀ j, i ≤ j → j < i + n → cond j = .ok true) → cond (i + n) = .error e →
      forLoop cond body fuel i st
        = (runBodies body (List.range' i n) st).map
            (fun r => r.bind (fun _ => .error e)) := by
  induction n with
  | zero =>
    intro i st fuel hf _ hstop
    obtain ⟨f, rfl⟩ : ∃ f, fuel = f + 1 := ⟨fuel - 1, by omega⟩
    simp only [Nat.add_zero] at hstop
    simp [forLoop, hstop, runBodies, Except.bind]
  | succ n ih =>
    intro i st fuel hf htrue hstop
    obtain ⟨f, rfl⟩ : ∃ f, fuel = f + 1 := ⟨fuel - 1, by omega⟩
    have hi : cond i = .ok true := htrue i (le_refl _) (by omega)
    rw [List.range'_succ]
    simp only [forLoop, hi, runBodies]
    cases hb : body i st with
    | none => rfl
    | some r =>
      cases r with
      | error e => rfl
      | ok st1 =>
        simp only []
        apply ih (i + 1) st1 f (by omega)
        · intro j h1 h2
          exact htrue j (by omega) (by omega)
        · rw [← hstop]; congr 1; omega

/-- With a first failing score at index `k`, the loop of `main.go` runs its
body on exactly `0, ..., k-1`, in order, whatever the body. -/
theorem detectionLoop_runs_bodies {σ : Type} (t : ℚ) (scores : List ℚ)
    (body : Nat → σ → Option (Except Panic σ)) (init : σ) (k : Nat)
    (hpass : ∀ (j : Nat) (s : ℚ), j < k → scores[j]? = some s → t < s)
    (hstop : ∃ s, scores[k]? = some s ∧ s ≤ t) :
    detectionLoop t scores body init = runBodies body (List.range k) init := by
  obtain ⟨sk, hsk, hle⟩ := hstop
  have hk : k < scores.length := by
    by_contra hcon
    rw [List.getElem?_eq_none (by omega)] at hsk
    cases hsk
  unfold detectionLoop
  rw [List.range_eq_range']
  apply forLoop_stops _ _ k 0 init _ (by omega)
  · intro j _ hj
    have hj' : j < scores.length := by omega
    rw [scoreCond_of_getElem? t scores j scores[j] (List.getElem?_eq_getElem hj')]
    have := hpass j scores[j] (by omega) (List.getElem?_eq_getElem hj')
    simp [this]
  · rw [Nat.zero_add, scoreCond_of_getElem? t scores k sk hsk]
    simp [not_lt.mpr hle]

/-- With a first failing score at index `k` and a body that always returns,
the loop of `main.go` runs its body on exactly `0, ..., k-1`, in order. -/
theorem detectionLoop_runs_before_first {σ : Type} (t : ℚ) (scores : List ℚ)
    (body : Nat → σ → Except Panic σ) (init : σ) (k : Nat)
    (hpass : ∀ (j : Nat) (s : ℚ), j < k → scores[j]? = some s → t < s)
    (hstop : ∃ s, scores[k]? = some s ∧ s ≤ t) :
    detectionLoop t scores (fun i st => some (body i st)) init
      = some ((List.range k).foldlM (fun st j => body j st) init) := by
  rw [detectionLoop_runs_bodies t scores _ init k hpass hstop, runBodies_total]

/-- A score sequence with a score `<= t` has a first such index. -/
theorem exists_first_failing (t : ℚ) (scores : List ℚ) (h : ∃ s ∈ scores, s ≤ t) :
    ∃ k, (∃ s, scores[k]? = some s ∧ s ≤ t) ∧
      (∀ (j : Nat) (s : ℚ), j < k → scores[j]? = some s → t < s) := by
  have hex : ∃ x ∈ scores, (fun s => decide (s ≤ t)) x = true := by
    obtain ⟨s, hs, hle⟩ := h
    exact ⟨s, hs, by simpa using hle⟩
  have hlt := List.findIdx_lt_length_of_exists hex
  refine ⟨scores.findIdx (fun s => decide (s ≤ t)), ⟨scores[scores.findIdx (fun s => decide (s ≤ t))], List.getElem?_eq_getElem hlt, ?_⟩, ?_⟩
  · have := List.findIdx_getElem (w := hlt)
    simpa using this
  · intro j s hj hs
    have hjl : j < scores.length := by omega
    have := List.not_of_lt_findIdx hj
    rw [List.getElem?_eq_getElem hjl] at hs
    cases hs
    simpa using this

theorem selected_foldlM (k : Nat) :
    ∀ acc : List Nat, (List.range' 0 k).foldlM (fun (st : List Nat) j => (Except.ok (st ++ [j]) : Except Panic (List Nat))) acc
      = .ok (acc ++ List.range' 0 k) := by
  induction k with
  | zero => intro acc; simp [pure, Except.pure]
  | succ k ih =>
    intro acc
    rw [List.range'_concat, List.foldlM_append, ih]
    simp [bind, Except.bind, pure, Except.pure]

theorem selected_of_first_failing (t : ℚ) (scores : List ℚ) (k : Nat)
    (hpass : ∀ (j : Nat) (s : ℚ), j < k → scores[j]? = some s → t < s)
    (hstop : ∃ s, scores[k]? = some s ∧ s ≤ t) :
    selected t scores = some (.ok (List.range k)) := by
  unfold selected
  rw [detectionLoop_runs_before_first t scores (fun i acc => .ok (acc ++ [i])) [] k hpass hstop,
    List.range_eq_range', selected_foldlM]
  simp

/-- C1: when some score is `<= t`, the threshold loop of `main.go` runs its
body on exactly the indices `0, ..., k-1`, where `k` is the smallest index
whose score is `<= t`: every score before `k` exceeds `t`, the score at `k`
does not, nothing is selected when the first score is `<= t`, and the JSON
loop and the image loop both execute their bodies on `0, ..., k-1` in order. -/
theorem filter_selects_prefix_before_first_failing (t : ℚ) (scores : List ℚ)
    (h : ∃ s ∈ scores, s ≤ t) :
    ∃ k : Nat,
      (∃ s, scores[k]? = some s ∧ s ≤ t) ∧
      (∀ (j : Nat) (s : ℚ), j < k → scores[j]? = some s → t < s) ∧
      (∀ (j : Nat) (s : ℚ), scores[j]? = some s → s ≤ t → k ≤ j) ∧
      selected t scores = some (.ok (List.range k)) ∧
      (∀ s0 : ℚ, scores[0]? = some s0 → s0 ≤ t → selected t scores = some (.ok [])) ∧
      (∀ (classes : List F32) (labels : List String),
        jsonReport t scores classes labels
          = some ((List.range k).foldlM
              (fun r i => jsonBody scores classes labels i r) [])) ∧
      (∀ (drawString : ImageRGBA → Point → RGBA → String → ImageRGBA)
          (cn : Colornames) (fuel : Nat) (classes : List F32) (boxes : List (List F32))
          (labels : List String) (bounds : Rectangle) (canvas : ImageRGBA),
        imageCanvas drawString cn fuel t scores classes boxes labels bounds canvas
          = runBodies (imageBody drawString cn fuel scores classes boxes labels bounds)
              (List.range k) canvas) := by
  obtain ⟨k, hstop, hpass⟩ := exists_first_failing t scores h
  have hmin : ∀ (j : Nat) (s : ℚ), scores[j]? = some s → s ≤ t → k ≤ j := by
    intro j s hs hle
    by_contra hcon
    exact absurd (hpass j s (by omega) hs) (not_lt.mpr hle)
  have hsel := selected_of_first_failing t scores k hpass hstop
  refine ⟨k, hstop, hpass, hmin, hsel, ?_, ?_, ?_⟩
  · intro s0 hs0 hle
    have hk0 : k = 0 := by
      have := hmin 0 s0 hs0 hle
      omega
    rw [hsel, hk0]
    rfl
  · intro classes labels
    exact detectionLoop_runs_before_first t scores _ [] k hpass hstop
  · intro drawString cn fuel classes boxes labels bounds canvas
    exact detectionLoop_runs_bodies t scores _ canvas k hpass hstop

theorem selected_scenarioA :
    selected (2 / 5) [9 / 10, 1 / 2, 3 / 10] = some (.ok [0, 1]) := by
  simp [selected, detectionLoop, forLoop, scoreCond, sliceIndex, bind, Except.bind, pure, Except.pure]
  norm_num

/-- Witness of C1 (scenario A): scores `[0.9, 0.5, 0.3]`, threshold `0.4`,
first failing index `2`, selected indices `[0, 1]`. -/
theorem filter_selects_prefix_scenarioA :
    (∃ s ∈ ([9 / 10, 1 / 2, 3 / 10] : List ℚ), s ≤ (2 / 5 : ℚ)) ∧
    ∃ k : Nat, k = 2 ∧
      selected (2 / 5) [9 / 10, 1 / 2, 3 / 10] = some (.ok (List.range k)) ∧
      selected (2 / 5) [9 / 10, 1 / 2, 3 / 10] = some (.ok [0, 1]) := by
  have hex : ∃ s ∈ ([9 / 10, 1 / 2, 3 / 10] : List ℚ), s ≤ (2 / 5 : ℚ) :=
    ⟨3 / 10, by simp, by norm_num⟩
  obtain ⟨k, hstop, _, hmin, hsel, _⟩ :=
    filter_selects_prefix_before_first_failing (2 / 5) [9 / 10, 1 / 2, 3 / 10] hex
  have hk2 : k ≤ 2 := hmin 2 (3 / 10) (by simp) (by norm_num)
  have hk : k = 2 := by
    obtain ⟨s, hs, hle⟩ := hstop
    by_contra hne
    have h01 : k = 0 ∨ k = 1 := by omega
    rcases h01 with h0 | h1
    · subst h0
      simp at hs
      subst hs
      norm_num at hle
    · subst h1
      simp at hs
      subst hs
      norm_num at hle
  refine ⟨hex, k, hk, hsel, ?_⟩
  rw [hsel, hk]
  rfl

/-! ## The threshold loop when every score passes -/

/-- When every score exceeds the threshold the loop runs its body on all
`N` indices and then panics reading `probabilities[N]`, whatever the body. -/
theorem detectionLoop_all_pass_bodies {σ : Type} (t : ℚ) (scores : List ℚ)
    (body : Nat → σ → Option (Except Panic σ)) (init : σ)
    (hall : ∀ s ∈ scores, t < s) :
    detectionLoop t scores body init
      = (runBodies body (List.range scores.length) init).map
          (fun r => r.bind
            (fun _ => .error (.indexOutOfRange scores.length scores.length))) := by
  unfold detectionLoop
  rw [List.range_eq_range']
  apply forLoop_panics _ _ _ scores.length 0 init _ (by omega)
  · intro j _ hj
    have hj' : j < scores.length := by omega
    rw [scoreCond_of_getElem? t scores j scores[j] (List.getElem?_eq_getElem hj')]
    have := hall scores[j] (List.getElem_mem _)
    simp [this]
  · rw [Nat.zero_add]
    exact scoreCond_of_length_le t scores _ (le_refl _)

/-- When every score exceeds the threshold and the body always returns, the
loop runs its body on all `N` indices and then panics reading
`probabilities[N]`. -/
theorem detectionLoop_all_pass {σ : Type} (t : ℚ) (scores : List ℚ)
    (body : Nat → σ → Except Panic σ) (init : σ)
    (hall : ∀ s ∈ scores, t < s) :
    detectionLoop t scores (fun i st => some (body i st)) init
      = some (((List.range scores.length).foldlM (fun st j => body j st) init).bind
          (fun _ => .error (.indexOutOfRange scores.length scores.length))) := by
  rw [detectionLoop_all_pass_bodies t scores _ init hall, runBodies_total]
  rfl

theorem selected_all_pass (t : ℚ) (scores : List ℚ) (hall : ∀ s ∈ scores, t < s) :
    selected t scores
      = some (.error (.indexOutOfRange scores.length scores.length)) := by
  unfold selected
  rw [detectionLoop_all_pass t scores (fun i acc => .ok (acc ++ [i])) [] hall,
    List.range_eq_range', selected_foldlM]
  rfl

/-- With a body that always returns, the loop of `main.go` always ends, with
a state or with a panic: the fuel `len + 1` is never used up. -/
theorem detectionLoop_terminates {σ : Type} (t : ℚ) (scores : List ℚ)
    (body : Nat → σ → Except Panic σ) (init : σ) :
    ∃ r, detectionLoop t scores (fun i st => some (body i st)) init = some r := by
  by_cases h : ∃ s ∈ scores, s ≤ t
  · obtain ⟨k, hstop, hpass⟩ := exists_first_failing t scores h
    exact ⟨_, detectionLoop_runs_before_first t scores body init k hpass hstop⟩
  · push_neg at h
    exact ⟨_, detectionLoop_all_pass t scores body init h⟩

/-- Whatever the body, the loop of `main.go` is the run of its bodies on an
initial segment of the indices, followed by the panic of `probabilities[N]`
when every score passes: it fails to return only when a body does. -/
theorem detectionLoop_is_run_of_bodies {σ : Type} (t : ℚ) (scores : List ℚ)
    (body : Nat → σ → Option (Except Panic σ)) (init : σ) :
    (∃ k, detectionLoop t scores body init = runBodies body (List.range k) init) ∨
    detectionLoop t scores body init
      = (runBodies body (List.range scores.length) init).map
          (fun r => r.bind
            (fun _ => .error (.indexOutOfRange scores.length scores.length))) := by
  by_cases h : ∃ s ∈ scores, s ≤ t
  · obtain ⟨k, hstop, hpass⟩ := exists_first_failing t scores h
    exact Or.inl ⟨k, detectionLoop_runs_bodies t scores body init k hpass hstop⟩
  · push_neg at h
    exact Or.inr (detectionLoop_all_pass_bodies t scores body init h)

/-- C2 (evaluation at the failing inputs): on the empty score sequence, and
on `[0.9, 0.5]` with threshold `0.4`, the loops of `main.go` (index
recording, JSON mode, image mode) and the loop of `detect.go` end in the
index-out-of-range panic at index `N` instead of yielding a result. -/
theorem all_pass_reads_past_end :
    selected (2 / 5) [] = some (.error (.indexOutOfRange 0 0)) ∧
    selected (2 / 5) [9 / 10, 1 / 2] = some (.error (.indexOutOfRange 2 2)) ∧
    (∀ labels : List String,
      jsonReport (2 / 5) [] [] labels = some (.error (.indexOutOfRange 0 0))) ∧
    (∀ (drawString : ImageRGBA → Point → RGBA → String → ImageRGBA)
        (cn : Colornames) (fuel : Nat) (labels : List String) (bounds : Rectangle)
        (canvas : ImageRGBA),
      imageCanvas drawString cn fuel (2 / 5) [] [] [] labels bounds canvas
          = some (.error (.indexOutOfRange 0 0)) ∧
      detectCanvas drawString cn fuel [] [] [] labels bounds canvas
          = some (.error (.indexOutOfRange 0 0))) := by
  refine ⟨?_, ?_, ?_, ?_⟩
  · exact selected_all_pass (2 / 5) [] (by simp)
  · exact selected_all_pass (2 / 5) [9 / 10, 1 / 2] (by
      intro s hs
      simp at hs
      rcases hs with rfl | rfl <;> norm_num)
  · intro labels
    rw [jsonReport, detectionLoop_all_pass (2 / 5) [] (jsonBody [] [] labels) [] (by simp)]
    rfl
  · intro drawString cn fuel labels bounds canvas
    constructor
    · rw [imageCanvas, detectionLoop_all_pass_bodies (2 / 5) [] _ canvas (by simp)]
      rfl
    · rw [detectCanvas, detectionLoop_all_pass_bodies _ [] _ canvas (by simp)]
      rfl

/-! ## Label lookup and the JSON report -/

theorem ok_bind {α β : Type} (x : α) (f : α → Except Panic β) :
    (Except.ok x >>= f) = f x := rfl

theorem error_bind {α β : Type} (e : Panic) (f : α → Except Panic β) :
    ((Except.error e : Except Panic α) >>= f) = .error e := rfl

theorem sliceIndex_eq_ok_iff {α : Type} (xs : List α) (i : Int) (x : α) :
    sliceIndex xs i = .ok x ↔ 0 ≤ i ∧ xs[i.toNat]? = some x := by
  unfold sliceIndex
  by_cases h : 0 ≤ i
  · simp only [h, if_true, true_and]
    cases hx : xs[i.toNat]? with
    | none => simp
    | some y => simp
  · simp [h]

theorem sliceIndex_out_of_range {α : Type} (xs : List α) (i : Int)
    (h : i < 0 ∨ (xs.length : Int) ≤ i) :
    sliceIndex xs i = .error (.indexOutOfRange i xs.length) := by
  unfold sliceIndex
  by_cases h0 : 0 ≤ i
  · have hlen : xs.length ≤ i.toNat := by omega
    simp [h0, List.getElem?_eq_none hlen]
  · simp [h0]

theorem sliceIndex_in_range {α : Type} (xs : List α) (i : Int)
    (h0 : 0 ≤ i) (h1 : i < (xs.length : Int)) :
    ∃ x, xs[i.toNat]? = some x ∧ sliceIndex xs i = .ok x := by
  have hlen : i.toNat < xs.length := by omega
  refine ⟨xs[i.toNat], List.getElem?_eq_getElem hlen, ?_⟩
  simp [sliceIndex, h0, List.getElem?_eq_getElem hlen]

/-- C6: the label lookup `labels[idx]` fails with the index-out-of-range
panic exactly when `idx` is negative or `>= len(labels)`, and otherwise
returns `labels[idx]`; the JSON loop body fails with the same panic at a
detection whose class index is out of range; class index `5` with a 3-entry
catalog fails. -/
theorem label_lookup_fails_iff_out_of_range (labels : List String) (c : Int) :
    ((∃ e, sliceIndex labels c = .error e) ↔ (c < 0 ∨ (labels.length : Int) ≤ c)) ∧
    ((c < 0 ∨ (labels.length : Int) ≤ c) →
      sliceIndex labels c = .error (.indexOutOfRange c labels.length)) ∧
    ((0 ≤ c ∧ c < (labels.length : Int)) →
      ∃ name, labels[c.toNat]? = some name ∧ sliceIndex labels c = .ok name) ∧
    (∀ (probabilities classes : List F32) (i : Nat) (x : F32) (result : List jsonResult),
      classes[i]? = some x → toInt x = c → (c < 0 ∨ (labels.length : Int) ≤ c) →
      jsonBody probabilities classes labels i result
        = .error (.indexOutOfRange c labels.length)) ∧
    sliceIndex ["background", "person", "bicycle"] 5 = .error (.indexOutOfRange 5 3) := by
  refine ⟨?_, sliceIndex_out_of_range labels c, ?_, ?_, ?_⟩
  · constructor
    · rintro ⟨e, he⟩
      by_contra hcon
      obtain ⟨name, _, hok⟩ := sliceIndex_in_range labels c (by omega) (by omega)
      rw [hok] at he
      cases he
    · intro h
      exact ⟨_, sliceIndex_out_of_range labels c h⟩
  · rintro ⟨h0, h1⟩
    exact sliceIndex_in_range labels c h0 h1
  · intro probabilities classes i x result hx hc hout
    simp only [jsonBody, sliceIndex_of_getElem? classes i x hx, ok_bind, hc,
      sliceIndex_out_of_range labels c hout, error_bind]
  · rfl

/-- Witness of C6 (scenario D): class index `5`, catalog of 3 entries. -/
theorem label_lookup_scenarioD :
    ((5 : Int) < 0 ∨ ((["background", "person", "bicycle"] : List String).length : Int) ≤ 5) ∧
    sliceIndex ["background", "person", "bicycle"] 5 = .error (.indexOutOfRange 5 3) ∧
    jsonBody [9 / 10] [5] ["background", "person", "bicycle"] 0 []
      = .error (.indexOutOfRange 5 3) :=
  have h := label_lookup_fails_iff_out_of_range ["background", "person", "bicycle"] 5
  ⟨Or.inr (by decide), h.2.1 (Or.inr (by decide)),
    h.2.2.2.1 [9 / 10] [5] 0 5 [] (by simp) (by simp [toInt]) (Or.inr (by decide))⟩

theorem jsonBody_ok (probabilities classes : List F32) (labels : List String)
    (i : Nat) (result : List jsonResult) (c s : ℚ) (name : String)
    (hc : classes[i]? = some c) (h0 : 0 ≤ toInt c)
    (hn : labels[(toInt c).toNat]? = some name) (hs : probabilities[i]? = some s) :
    jsonBody probabilities classes labels i result = .ok (result ++ [⟨name, s⟩]) := by
  have hl : sliceIndex labels (toInt c) = .ok name :=
    (sliceIndex_eq_ok_iff labels (toInt c) name).mpr ⟨h0, hn⟩
  simp only [jsonBody, sliceIndex_of_getElem? classes i c hc, ok_bind, hl,
    sliceIndex_of_getElem? probabilities i s hs]
  rfl

theorem json_fold (probabilities classes : List F32) (labels : List String) (k : Nat)
    (hvalid : ∀ i, i < k → ∃ c s name, classes[i]? = some c ∧ 0 ≤ toInt c ∧
      labels[(toInt c).toNat]? = some name ∧ probabilities[i]? = some s) :
    ∀ acc : List jsonResult,
      (List.range' 0 k).foldlM (fun r i => jsonBody probabilities classes labels i r) acc
        = .ok (acc ++ (List.range' 0 k).map (fun i =>
            (⟨labels.getD (toInt (classes.getD i 0)).toNat "", probabilities.getD i 0⟩
              : jsonResult))) := by
  induction k with
  | zero => intro acc; simp [pure, Except.pure]
  | succ k ih =>
    intro acc
    obtain ⟨c, s, name, hc, h0, hn, hs⟩ := hvalid k (by omega)
    rw [List.range'_concat, List.foldlM_append,
      ih (fun i hi => hvalid i (by omega)) acc, ok_bind]
    simp only [Nat.zero_add, Nat.one_mul, List.foldlM_cons, List.foldlM_nil]
    rw [jsonBody_ok probabilities classes labels k _ c s name hc h0 hn hs, ok_bind]
    simp [List.getD, hc, hn, hs, pure, Except.pure]

/-- A successful scan has a first failing score and selects the indices
before it. -/
theorem selected_ok_inv (t : ℚ) (scores : List ℚ) (idxs : List Nat)
    (hsel : selected t scores = some (.ok idxs)) :
    idxs = List.range idxs.length ∧
    (∃ s, scores[idxs.length]? = some s ∧ s ≤ t) ∧
    (∀ (j : Nat) (s : ℚ), j < idxs.length → scores[j]? = some s → t < s) := by
  have hex : ∃ s ∈ scores, s ≤ t := by
    by_contra hcon
    push_neg at hcon
    rw [selected_all_pass t scores hcon] at hsel
    cases hsel
  obtain ⟨k, hstop, hpass⟩ := exists_first_failing t scores hex
  rw [selected_of_first_failing t scores k hpass hstop] at hsel
  have hk : idxs = List.range k := by
    injection hsel with h1
    injection h1 with h2
    exact h2.symm
  have hlen : idxs.length = k := by rw [hk, List.length_range]
  rw [hlen]
  exact ⟨hk, hstop, hpass⟩

/-- C5: in JSON mode, when the scan selects `k` detections and each of them
has a class index that is a valid catalog index, the report has exactly `k`
records, in detection order, and record `i` is
`{labels[int(classes[i])], scores[i]}` with the score unchanged. -/
theorem json_report_matches_selection (t : ℚ) (scores classes : List ℚ)
    (labels : List String) (idxs : List Nat)
    (hsel : selected t scores = some (.ok idxs))
    (hvalid : ∀ i ∈ idxs, ∃ c, classes[i]? = some c ∧ 0 ≤ toInt c ∧
      toInt c < (labels.length : Int)) :
    ∃ report : List jsonResult,
      jsonReport t scores classes labels = some (.ok report) ∧
      report.length = idxs.length ∧
      idxs = List.range idxs.length ∧
      ∀ i : Nat, i < idxs.length →
        ∃ c s name, classes[i]? = some c ∧ scores[i]? = some s ∧
          labels[(toInt c).toNat]? = some name ∧
          report[i]? = some ⟨name, s⟩ := by
  obtain ⟨hrange, hstop, hpass⟩ := selected_ok_inv t scores idxs hsel
  obtain ⟨sk, hsk, _⟩ := hstop
  have hklt : idxs.length < scores.length := by
    by_contra hcon
    rw [List.getElem?_eq_none (by omega)] at hsk
    cases hsk
  have hdata : ∀ i, i < idxs.length → ∃ c s name, classes[i]? = some c ∧ 0 ≤ toInt c ∧
      labels[(toInt c).toNat]? = some name ∧ scores[i]? = some s := by
    intro i hi
    have hmem : i ∈ idxs := by
      rw [hrange]
      exact List.mem_range.mpr hi
    obtain ⟨c, hc, h0, h1⟩ := hvalid i hmem
    have hl : (toInt c).toNat < labels.length := by omega
    exact ⟨c, scores[i], labels[(toInt c).toNat], hc, h0,
      List.getElem?_eq_getElem hl, List.getElem?_eq_getElem (by omega)⟩
  refine ⟨(List.range' 0 idxs.length).map (fun i =>
      (⟨labels.getD (toInt (classes.getD i 0)).toNat "", scores.getD i 0⟩ : jsonResult)),
    ?_, ?_, hrange, ?_⟩
  · unfold jsonReport
    rw [detectionLoop_runs_before_first t scores (jsonBody scores classes labels) []
        idxs.length hpass ⟨sk, hsk, by assumption⟩,
      List.range_eq_range', json_fold scores classes labels idxs.length hdata]
    simp
  · simp
  · intro i hi
    obtain ⟨c, s, name, hc, _, hn, hs⟩ := hdata i hi
    refine ⟨c, s, name, hc, hs, hn, ?_⟩
    simp [List.getElem?_map, List.getElem?_range' , hi, List.getD, hc, hn, hs]

/-- Witness of C5: scores `[0.9, 0.5, 0.3]`, classes `[1, 2, 0]`, threshold
`0.4` and a 3-entry catalog give the two records `person 0.9`, `bicycle 0.5`. -/
theorem json_report_scenario :
    selected (2 / 5) [9 / 10, 1 / 2, 3 / 10] = some (.ok [0, 1]) ∧
    jsonReport (2 / 5) [9 / 10, 1 / 2, 3 / 10] [1, 2, 0] ["background", "person", "bicycle"]
      = some (.ok [⟨"person", 9 / 10⟩, ⟨"bicycle", 1 / 2⟩]) ∧
    ∃ report : List jsonResult,
      jsonReport (2 / 5) [9 / 10, 1 / 2, 3 / 10] [1, 2, 0] ["background", "person", "bicycle"]
        = some (.ok report) ∧
      report.length = ([0, 1] : List Nat).length := by
  have hsel := selected_scenarioA
  obtain ⟨report, hrep, hlen, _, hrec⟩ :=
    json_report_matches_selection (2 / 5) [9 / 10, 1 / 2, 3 / 10] [1, 2, 0]
      ["background", "person", "bicycle"] [0, 1] hsel
      (by
        intro i hi
        simp at hi
        rcases hi with rfl | rfl
        · exact ⟨1, by simp, by simp [toInt], by simp [toInt]⟩
        · exact ⟨2, by simp, by simp [toInt], by simp [toInt]⟩)
  refine ⟨hsel, ?_, report, hrep, hlen⟩
  rw [hrep]
  obtain ⟨c0, s0, n0, hc0, hs0, hn0, hr0⟩ := hrec 0 (by simp)
  obtain ⟨c1, s1, n1, hc1, hs1, hn1, hr1⟩ := hrec 1 (by simp)
  simp at hc0 hs0 hc1 hs1
  subst hc0 hs0 hc1 hs1
  simp [toInt] at hn0 hn1
  subst hn0 hn1
  match report, hlen, hr0, hr1 with
  | [a, b], _, hr0, hr1 =>
    simp at hr0 hr1
    subst hr0 hr1
    norm_num

/-! ## The early-exit scan against the full filter -/

theorem filter_lt_range (k : Nat) : ∀ n : Nat, k ≤ n →
    (List.range n).filter (fun i => decide (i < k)) = List.range k := by
  intro n
  induction n with
  | zero =>
    intro h
    have : k = 0 := by omega
    subst this
    rfl
  | succ n ih =>
    intro h
    rw [List.range_succ, List.filter_append]
    by_cases hk : k ≤ n
    · rw [ih hk]
      have : ¬ n < k := by omega
      simp [this]
    · have hkn : k = n + 1 := by omega
      subst hkn
      have hall : (List.range n).filter (fun i => decide (i < n + 1)) = List.range n := by
        apply List.filter_eq_self.mpr
        intro a ha
        have := List.mem_range.mp ha
        simp; omega
      rw [hall, List.range_succ]
      simp

theorem fullFilter_of_sorted (t : ℚ) (scores : List ℚ) (k : Nat)
    (hsorted : scores.Pairwise (fun a b => a ≥ b))
    (hpass : ∀ (j : Nat) (s : ℚ), j < k → scores[j]? = some s → t < s)
    (hstop : ∃ s, scores[k]? = some s ∧ s ≤ t) :
    fullFilter t scores = List.range k := by
  obtain ⟨sk, hsk, hle⟩ := hstop
  have hk : k < scores.length := by
    by_contra hcon
    rw [List.getElem?_eq_none (by omega)] at hsk
    cases hsk
  have hskv : scores[k] = sk := by
    rw [List.getElem?_eq_getElem hk] at hsk
    exact Option.some.inj hsk
  unfold fullFilter
  rw [← filter_lt_range k scores.length (by omega)]
  apply List.filter_congr
  intro i hi
  have hil : i < scores.length := List.mem_range.mp hi
  rw [List.getElem?_eq_getElem hil]
  by_cases hik : i < k
  · have := hpass i scores[i] hik (List.getElem?_eq_getElem hil)
    simp [hik, this]
  · have hge : scores[i] ≤ t := by
      rcases Nat.eq_or_lt_of_le (Nat.le_of_not_lt hik) with heq | hlt
      · subst heq; rw [hskv]; exact hle
      · have := (List.pairwise_iff_getElem.mp hsorted) k i hk hil hlt
        rw [hskv] at this
        exact le_trans this hle
    simp [hik, not_lt.mpr hge]

/-- C10: for a score sequence sorted in descending order that contains a
score `<= t`, the indices selected by the early-exit scan are exactly the
indices of the full filter (all `i` with `scores[i] > t`); on the unsorted
sequence `[0.9, 0.3, 0.5]` with `t = 0.4` the scan selects `[0]` while the
full filter is `[0, 2]`. -/
theorem scan_equals_full_filter_on_sorted (t : ℚ) (scores : List ℚ)
    (hsorted : scores.Pairwise (fun a b => a ≥ b))
    (hex : ∃ s ∈ scores, s ≤ t) :
    selected t scores = some (.ok (fullFilter t scores)) ∧
    (∀ i : Nat, i ∈ fullFilter t scores ↔ ∃ s, scores[i]? = some s ∧ t < s) ∧
    (selected (2 / 5) [9 / 10, 3 / 10, 1 / 2] = some (.ok [0]) ∧
      fullFilter (2 / 5) [9 / 10, 3 / 10, 1 / 2] = [0, 2]) := by
  obtain ⟨k, hstop, hpass⟩ := exists_first_failing t scores hex
  refine ⟨?_, ?_, ?_, ?_⟩
  · rw [fullFilter_of_sorted t scores k hsorted hpass hstop]
    exact selected_of_first_failing t scores k hpass hstop
  · intro i
    unfold fullFilter
    rw [List.mem_filter, List.mem_range]
    constructor
    · rintro ⟨hi, hp⟩
      rw [List.getElem?_eq_getElem hi] at hp
      exact ⟨scores[i], List.getElem?_eq_getElem hi, by simpa using hp⟩
    · rintro ⟨s, hs, hlt⟩
      have hi : i < scores.length := by
        by_contra hcon
        rw [List.getElem?_eq_none (by omega)] at hs
        cases hs
      refine ⟨hi, ?_⟩
      rw [hs]
      simpa using hlt
  · simp [selected, detectionLoop, forLoop, scoreCond, sliceIndex, bind, Except.bind,
      pure, Except.pure]
    norm_num
  · simp [fullFilter, List.range, List.range.loop, List.filter]
    norm_num

/-- Witness of C10: the sorted sequence `[0.9, 0.5, 0.3]` with `t = 0.4`. -/
theorem scan_equals_full_filter_scenario :
    ([9 / 10, 1 / 2, 3 / 10] : List ℚ).Pairwise (fun a b => a ≥ b) ∧
    (∃ s ∈ ([9 / 10, 1 / 2, 3 / 10] : List ℚ), s ≤ (2 / 5 : ℚ)) ∧
    selected (2 / 5) [9 / 10, 1 / 2, 3 / 10]
      = some (.ok (fullFilter (2 / 5) [9 / 10, 1 / 2, 3 / 10])) :=
  have hs : ([9 / 10, 1 / 2, 3 / 10] : List ℚ).Pairwise (fun a b => a ≥ b) := by
    simp; norm_num
  have hex : ∃ s ∈ ([9 / 10, 1 / 2, 3 / 10] : List ℚ), s ≤ (2 / 5 : ℚ) :=
    ⟨3 / 10, by simp, by norm_num⟩
  ⟨hs, hex, (scan_equals_full_filter_on_sorted (2 / 5) [9 / 10, 1 / 2, 3 / 10] hs hex).1⟩

/-! ## Floating point: evaluation and exactness -/

theorem log2_eq (x : ℚ) (e : Int) (h1 : (2 : ℚ) ^ e ≤ x) (h2 : x < (2 : ℚ) ^ (e + 1)) :
    Int.log 2 x = e := by
  have hpos : (0 : ℚ) < x := lt_of_lt_of_le (by positivity) h1
  have a : e ≤ Int.log 2 x := (Int.zpow_le_iff_le_log (by norm_num) hpos).mp (by exact_mod_cast h1)
  have b : Int.log 2 x < e + 1 := (Int.lt_zpow_iff_log_lt (by norm_num) hpos).mp (by exact_mod_cast h2)
  omega

theorem roundHalfEven_intCast (n : Int) : roundHalfEven (n : ℚ) = n := by
  simp [roundHalfEven]

theorem roundHalfEven_of_lt_half (x : ℚ) (n : Int) (h1 : (n : ℚ) ≤ x)
    (h2 : x - n < 1 / 2) : roundHalfEven x = n := by
  have hf : ⌊x⌋ = n := Int.floor_eq_iff.mpr ⟨h1, by linarith⟩
  simp only [roundHalfEven, hf]
  rw [if_pos h2]

theorem roundHalfEven_of_gt_half (x : ℚ) (n : Int) (h1 : (n : ℚ) ≤ x)
    (h2 : 1 / 2 < x - n) (h3 : x < n + 1) : roundHalfEven x = n + 1 := by
  have hf : ⌊x⌋ = n := Int.floor_eq_iff.mpr ⟨h1, h3⟩
  have : ¬ (x - n < 1 / 2) := not_lt.mpr (le_of_lt h2)
  simp only [roundHalfEven, hf]
  rw [if_neg this, if_pos h2]

theorem roundHalfEven_of_tie (x : ℚ) (n : Int) (h : x = n + 1 / 2) :
    roundHalfEven x = if n % 2 = 0 then n else n + 1 := by
  have hf : ⌊x⌋ = n := Int.floor_eq_iff.mpr ⟨by rw [h]; linarith, by rw [h]; linarith⟩
  have h1 : ¬ (x - n < 1 / 2) := by rw [h]; norm_num
  have h2 : ¬ (1 / 2 < x - n) := by rw [h]; norm_num
  simp only [roundHalfEven, hf]
  rw [if_neg h1, if_neg h2]

theorem toInt_of_nonneg (x : ℚ) (n : Int) (h0 : 0 ≤ x) (h1 : (n : ℚ) ≤ x)
    (h2 : x < n + 1) : toInt x = n := by
  simp only [toInt, if_pos h0]
  exact Int.floor_eq_iff.mpr ⟨h1, h2⟩

theorem toInt_intCast (n : Int) : toInt (n : ℚ) = n := by
  by_cases h : (0 : ℚ) ≤ n <;> simp [toInt, h]

theorem roundToPrec_eval (p : Nat) (x : ℚ) (e : Int) (h1 : (2 : ℚ) ^ e ≤ |x|)
    (h2 : |x| < (2 : ℚ) ^ (e + 1)) :
    roundToPrec p x
      = (roundHalfEven (x / 2 ^ (e - ((p : Int) - 1))) : ℚ) * 2 ^ (e - ((p : Int) - 1)) := by
  have hx : x ≠ 0 := by
    intro h
    rw [h, abs_zero] at h1
    exact absurd h1 (not_le.mpr (by positivity))
  simp only [roundToPrec, if_neg hx, log2_eq |x| e h1 h2]

/-- A value `m * 2^k` whose integer significand `m` has at most `p` bits is
unchanged by rounding to `p` bits. -/
theorem roundToPrec_exact (p : Nat) (m k : Int) (hm : |m| < 2 ^ p) :
    roundToPrec p ((m : ℚ) * 2 ^ k) = (m : ℚ) * 2 ^ k := by
  by_cases hm0 : m = 0
  · simp [roundToPrec, hm0]
  have h2 : (2 : ℚ) ≠ 0 := by norm_num
  have hx : (m : ℚ) * 2 ^ k ≠ 0 := mul_ne_zero (by exact_mod_cast hm0) (zpow_ne_zero _ h2)
  have hxpos : (0 : ℚ) < |(m : ℚ) * 2 ^ k| := abs_pos.mpr hx
  have habs : |(m : ℚ) * 2 ^ k| = |(m : ℚ)| * 2 ^ k := by
    rw [abs_mul, abs_of_pos (by positivity : (0 : ℚ) < 2 ^ k)]
  have hmq : |(m : ℚ)| < (2 : ℚ) ^ (p : Int) := by
    have : ((|m| : Int) : ℚ) < ((2 ^ p : Int) : ℚ) := by exact_mod_cast hm
    simpa using this
  have hlt : |(m : ℚ) * 2 ^ k| < (2 : ℚ) ^ ((p : Int) + k) := by
    rw [habs, zpow_add₀ h2]
    exact mul_lt_mul_of_pos_right hmq (by positivity)
  have hlog : Int.log 2 |(m : ℚ) * 2 ^ k| < (p : Int) + k :=
    (Int.lt_zpow_iff_log_lt (by norm_num : 1 < 2) hxpos).mp (by exact_mod_cast hlt)
  obtain ⟨d, hd⟩ : ∃ d : Nat, (d : Int) = k - (Int.log 2 |(m : ℚ) * 2 ^ k| - ((p : Int) - 1)) :=
    ⟨(k - (Int.log 2 |(m : ℚ) * 2 ^ k| - ((p : Int) - 1))).toNat, by omega⟩
  have hk : k = (d : Int) + (Int.log 2 |(m : ℚ) * 2 ^ k| - ((p : Int) - 1)) := by omega
  simp only [roundToPrec, if_neg hx]
  generalize Int.log 2 |(m : ℚ) * 2 ^ k| - ((p : Int) - 1) = e at hk ⊢
  subst hk
  have hdiv : (m : ℚ) * 2 ^ ((d : Int) + e) / 2 ^ e = ((m * 2 ^ d : Int) : ℚ) := by
    rw [zpow_add₀ h2, ← mul_assoc, mul_div_assoc, div_self (zpow_ne_zero _ h2), mul_one]
    push_cast
    rw [zpow_natCast]
  rw [hdiv, roundHalfEven_intCast]
  push_cast
  rw [zpow_add₀ h2, zpow_natCast, mul_assoc]

theorem toFloat64_intCast (n : Int) (h : |n| < 2 ^ 53) : toFloat64 (n : ℚ) = n := by
  have := roundToPrec_exact 53 n 0 h
  simpa [toFloat64] using this

theorem toFloat64_zero : toFloat64 0 = 0 := by simp [toFloat64, roundToPrec]

theorem toFloat64_exact (x : ℚ) (m k : Int) (hm : |m| < 2 ^ 53)
    (hx : x = (m : ℚ) * 2 ^ k) : toFloat64 x = x := by
  rw [hx]
  exact roundToPrec_exact 53 m k hm

theorem toFloat32_exact (x : ℚ) (m k : Int) (hm : |m| < 2 ^ 24)
    (hx : x = (m : ℚ) * 2 ^ k) : toFloat32 x = x := by
  rw [hx]
  exact roundToPrec_exact 24 m k hm

theorem toFloat32_eval (x r : ℚ) (e n : Int) (h1 : (2 : ℚ) ^ e ≤ |x|)
    (h2 : |x| < (2 : ℚ) ^ (e + 1)) (hn : roundHalfEven (x / 2 ^ (e - 23)) = n)
    (hr : (n : ℚ) * 2 ^ (e - 23) = r) : toFloat32 x = r := by
  rw [toFloat32, roundToPrec_eval 24 x e h1 h2]
  have : e - (((24 : Nat) : Int) - 1) = e - 23 := by norm_num
  rw [this, hn, hr]

theorem toFloat32_one_tenth : toFloat32 (1 / 10) = 13421773 / 134217728 := by
  apply toFloat32_eval (1 / 10) _ (-4) 13421773
  · norm_num [abs_of_pos]
  · norm_num [abs_of_pos]
  · have := roundHalfEven_of_gt_half ((1 / 10 : ℚ) / 2 ^ ((-4 : Int) - 23)) 13421772
      (by norm_num) (by norm_num) (by norm_num)
    simpa using this
  · norm_num

theorem toFloat32_one_fifth : toFloat32 (1 / 5) = 13421773 / 67108864 := by
  apply toFloat32_eval (1 / 5) _ (-3) 13421773
  · norm_num [abs_of_pos]
  · norm_num [abs_of_pos]
  · have := roundHalfEven_of_gt_half ((1 / 5 : ℚ) / 2 ^ ((-3 : Int) - 23)) 13421772
      (by norm_num) (by norm_num) (by norm_num)
    simpa using this
  · norm_num

theorem toFloat32_four_fifths : toFloat32 (4 / 5) = 13421773 / 16777216 := by
  apply toFloat32_eval (4 / 5) _ (-1) 13421773
  · norm_num [abs_of_pos]
  · norm_num [abs_of_pos]
  · have := roundHalfEven_of_gt_half ((4 / 5 : ℚ) / 2 ^ ((-1 : Int) - 23)) 13421772
      (by norm_num) (by norm_num) (by norm_num)
    simpa using this
  · norm_num

theorem toFloat32_nine_tenths : toFloat32 (9 / 10) = 7549747 / 8388608 := by
  apply toFloat32_eval (9 / 10) _ (-1) 15099494
  · norm_num [abs_of_pos]
  · norm_num [abs_of_pos]
  · exact roundHalfEven_of_lt_half _ 15099494 (by norm_num) (by norm_num)
  · norm_num

/-- One pixel coordinate when the origin is `0` and the product is exact. -/
theorem pixelCoord_origin_eval (extent : Int) (v : ℚ) (m k n : Int)
    (he : |extent| < 2 ^ 53) (hm : |m| < 2 ^ 53)
    (hv : (extent : ℚ) * v = (m : ℚ) * 2 ^ k)
    (h0 : 0 ≤ (extent : ℚ) * v) (h1 : (n : ℚ) ≤ (extent : ℚ) * v)
    (h2 : (extent : ℚ) * v < n + 1) :
    pixelCoord 0 extent v = n := by
  have hp : toFloat64 ((extent : ℚ) * v) = (extent : ℚ) * v := toFloat64_exact _ m k hm hv
  simp only [pixelCoord, F64.add, F64.mul, F64.ofInt, Int.cast_zero, toFloat64_zero,
    toFloat64_intCast extent he, zero_add, hp]
  exact toInt_of_nonneg _ n h0 h1 h2

theorem mapBox_four (bounds : Rectangle) (b0 b1 b2 b3 : F32) :
    mapBox bounds [b0, b1, b2, b3]
      = .ok ⟨pixelCoord bounds.Min.X bounds.Dx b1, pixelCoord bounds.Min.Y bounds.Dy b0,
          pixelCoord bounds.Min.X bounds.Dx b3, pixelCoord bounds.Min.Y bounds.Dy b2⟩ := by
  rfl

theorem mapBox_scenarioC_float32 :
    mapBox ⟨⟨0, 0⟩, ⟨200, 100⟩⟩
      [toFloat32 (1 / 10), toFloat32 (1 / 5), toFloat32 (9 / 10), toFloat32 (4 / 5)]
      = .ok ⟨40, 10, 160, 89⟩ := by
  rw [mapBox_four, toFloat32_one_tenth, toFloat32_one_fifth, toFloat32_nine_tenths,
    toFloat32_four_fifths]
  have hx1 : pixelCoord 0 200 (13421773 / 67108864) = 40 :=
    pixelCoord_origin_eval 200 _ (200 * 13421773) (-26) 40 (by norm_num) (by norm_num)
      (by norm_num) (by norm_num) (by norm_num) (by norm_num)
  have hy1 : pixelCoord 0 100 (13421773 / 134217728) = 10 :=
    pixelCoord_origin_eval 100 _ (100 * 13421773) (-27) 10 (by norm_num) (by norm_num)
      (by norm_num) (by norm_num) (by norm_num) (by norm_num)
  have hx2 : pixelCoord 0 200 (13421773 / 16777216) = 160 :=
    pixelCoord_origin_eval 200 _ (200 * 13421773) (-24) 160 (by norm_num) (by norm_num)
      (by norm_num) (by norm_num) (by norm_num) (by norm_num)
  have hy2 : pixelCoord 0 100 (7549747 / 8388608) = 89 :=
    pixelCoord_origin_eval 100 _ (100 * 7549747) (-23) 89 (by norm_num) (by norm_num)
      (by norm_num) (by norm_num) (by norm_num) (by norm_num)
  simp only [Rectangle.Dx, Rectangle.Dy]
  norm_num [hx1, hy1, hx2, hy2]

/-! ## Pixel coordinates of a box -/

/-- With the origin at `0`, an extent below `2^29` and a `float32` value
`m * 2^k`, the `float64` computation of a pixel coordinate is exact. -/
theorem pixelCoord_origin_exact (extent : Int) (v : ℚ) (m k : Int)
    (he : |extent| < 2 ^ 29) (hm : |m| < 2 ^ 24) (hv : v = (m : ℚ) * 2 ^ k) :
    pixelCoord 0 extent v = toInt ((extent : ℚ) * v) := by
  have hprod : |extent * m| < 2 ^ 53 := by
    rw [abs_mul]
    calc |extent| * |m| ≤ |extent| * 2 ^ 24 :=
          mul_le_mul_of_nonneg_left (le_of_lt hm) (abs_nonneg _)
      _ < 2 ^ 29 * 2 ^ 24 := by
          apply mul_lt_mul_of_pos_right he (by norm_num)
      _ = 2 ^ 53 := by norm_num
  have hp : toFloat64 ((extent : ℚ) * v) = (extent : ℚ) * v :=
    toFloat64_exact _ (extent * m) k hprod (by rw [hv]; push_cast; ring)
  have he53 : |extent| < 2 ^ 53 := lt_trans he (by norm_num)
  simp only [pixelCoord, F64.add, F64.mul, F64.ofInt, Int.cast_zero, toFloat64_zero,
    toFloat64_intCast extent he53, zero_add, hp]

/-- C3 (counterexample): the `float32` box nearest to `(0.1, 0.2, 0.9, 0.8)`
on the bounds with origin `(0, 0)`, width 200 and height 100 maps to
`y2 = 89`, not `90`: the `float32` nearest to `0.9` lies below `0.9`. -/
theorem mapBox_scenarioC_y2_is_89 :
    mapBox ⟨⟨0, 0⟩, ⟨200, 100⟩⟩
      [toFloat32 (1 / 10), toFloat32 (1 / 5), toFloat32 (9 / 10), toFloat32 (4 / 5)]
      = .ok ⟨40, 10, 160, 89⟩ ∧
    mapBox ⟨⟨0, 0⟩, ⟨200, 100⟩⟩
      [toFloat32 (1 / 10), toFloat32 (1 / 5), toFloat32 (9 / 10), toFloat32 (4 / 5)]
      ≠ .ok ⟨40, 10, 160, 90⟩ := by
  refine ⟨mapBox_scenarioC_float32, ?_⟩
  rw [mapBox_scenarioC_float32]
  intro h
  injection h with h1
  injection h1 with _ _ _ h2
  exact absurd h2 (by decide)

/-- C3 (amended): for every box `(y1, x1, y2, x2)` and all bounds the pixel
coordinates are `int(float64(min) + float64(extent) * float64(v))`, evaluated
in `float64` and truncated toward zero, with components 0 and 2 the `y`
values and 1 and 3 the `x` values, and no clamping; with the origin at `0`,
an extent below `2^29` and a `float32` component the value is the truncation
of the exact product; the `float32` box nearest to `(0.1, 0.2, 0.9, 0.8)` on
origin `(0, 0)`, width 200, height 100 gives `x1=40, y1=10, x2=160, y2=89`. -/
theorem mapBox_truncates_float64_formula (bounds : Rectangle) (b0 b1 b2 b3 : F32) :
    mapBox bounds [b0, b1, b2, b3]
      = .ok ⟨toInt (F64.add (F64.ofInt bounds.Min.X) (F64.mul (F64.ofInt bounds.Dx) b1)),
          toInt (F64.add (F64.ofInt bounds.Min.Y) (F64.mul (F64.ofInt bounds.Dy) b0)),
          toInt (F64.add (F64.ofInt bounds.Min.X) (F64.mul (F64.ofInt bounds.Dx) b3)),
          toInt (F64.add (F64.ofInt bounds.Min.Y) (F64.mul (F64.ofInt bounds.Dy) b2))⟩ ∧
    (∀ (extent : Int) (v : ℚ) (m k : Int), |extent| < 2 ^ 29 → |m| < 2 ^ 24 →
      v = (m : ℚ) * 2 ^ k → pixelCoord 0 extent v = toInt ((extent : ℚ) * v)) ∧
    mapBox ⟨⟨0, 0⟩, ⟨200, 100⟩⟩
      [toFloat32 (1 / 10), toFloat32 (1 / 5), toFloat32 (9 / 10), toFloat32 (4 / 5)]
      = .ok ⟨40, 10, 160, 89⟩ ∧
    mapBox ⟨⟨0, 0⟩, ⟨200, 100⟩⟩ [0, 0, 3 / 2, 3 / 2] = .ok ⟨0, 0, 300, 150⟩ := by
  refine ⟨rfl, pixelCoord_origin_exact, mapBox_scenarioC_float32, ?_⟩
  rw [mapBox_four]
  have hx1 : pixelCoord 0 200 0 = 0 :=
    pixelCoord_origin_eval 200 _ 0 0 0 (by norm_num) (by norm_num)
      (by norm_num) (by norm_num) (by norm_num) (by norm_num)
  have hy1 : pixelCoord 0 100 0 = 0 :=
    pixelCoord_origin_eval 100 _ 0 0 0 (by norm_num) (by norm_num)
      (by norm_num) (by norm_num) (by norm_num) (by norm_num)
  have hx2 : pixelCoord 0 200 (3 / 2) = 300 :=
    pixelCoord_origin_eval 200 _ 300 0 300 (by norm_num) (by norm_num)
      (by norm_num) (by norm_num) (by norm_num) (by norm_num)
  have hy2 : pixelCoord 0 100 (3 / 2) = 150 :=
    pixelCoord_origin_eval 100 _ 150 0 150 (by norm_num) (by norm_num)
      (by norm_num) (by norm_num) (by norm_num) (by norm_num)
  simp only [Rectangle.Dx, Rectangle.Dy]
  norm_num [hx1, hy1, hx2, hy2]

/-- Witness of C3 (amended): the box `(0.125, 0.25, 0.875, 0.75)`, whose
components are `float32` values, on width 200 and height 100. -/
theorem mapBox_truncates_scenario :
    mapBox ⟨⟨0, 0⟩, ⟨200, 100⟩⟩ [1 / 8, 1 / 4, 7 / 8, 3 / 4] = .ok ⟨50, 12, 150, 87⟩ := by
  have h := mapBox_truncates_float64_formula ⟨⟨0, 0⟩, ⟨200, 100⟩⟩ (1 / 8) (1 / 4) (7 / 8) (3 / 4)
  rw [h.1]
  have e := h.2.1
  simp only [pixelCoord] at e
  simp only [Rectangle.Dx, Rectangle.Dy, sub_zero]
  rw [e 200 (1 / 4) 1 (-2) (by norm_num) (by norm_num) (by norm_num),
    e 100 (1 / 8) 1 (-3) (by norm_num) (by norm_num) (by norm_num),
    e 200 (3 / 4) 3 (-2) (by norm_num) (by norm_num) (by norm_num),
    e 100 (7 / 8) 7 (-3) (by norm_num) (by norm_num) (by norm_num)]
  have t1 : toInt ((200 : Int) * (1 / 4 : ℚ)) = 50 :=
    toInt_of_nonneg _ 50 (by norm_num) (by norm_num) (by norm_num)
  have t2 : toInt ((100 : Int) * (1 / 8 : ℚ)) = 12 :=
    toInt_of_nonneg _ 12 (by norm_num) (by norm_num) (by norm_num)
  have t3 : toInt ((200 : Int) * (3 / 4 : ℚ)) = 150 :=
    toInt_of_nonneg _ 150 (by norm_num) (by norm_num) (by norm_num)
  have t4 : toInt ((100 : Int) * (7 / 8 : ℚ)) = 87 :=
    toInt_of_nonneg _ 87 (by norm_num) (by norm_num) (by norm_num)
  rw [t1, t2, t3, t4]

/-- C4: for image bounds whose coordinates and extents are exactly
representable in `float64` (magnitude below `2^53`, as for every decodable
image), the full-image box `(0, 0, 1, 1)` maps to `x1 = minX`, `y1 = minY`,
`x2 = maxX`, `y2 = maxY`, and `image.Rect` of these is the bounds. -/
theorem full_box_maps_to_bounds (bounds : Rectangle)
    (hx : |bounds.Min.X| < 2 ^ 53 ∧ |bounds.Max.X| < 2 ^ 53 ∧ |bounds.Dx| < 2 ^ 53)
    (hy : |bounds.Min.Y| < 2 ^ 53 ∧ |bounds.Max.Y| < 2 ^ 53 ∧ |bounds.Dy| < 2 ^ 53)
    (hwf : bounds.Min.X ≤ bounds.Max.X ∧ bounds.Min.Y ≤ bounds.Max.Y) :
    mapBox bounds [0, 0, 1, 1]
      = .ok ⟨bounds.Min.X, bounds.Min.Y, bounds.Max.X, bounds.Max.Y⟩ ∧
    Rect bounds.Min.X bounds.Min.Y bounds.Max.X bounds.Max.Y = bounds := by
  have lo : ∀ mn ext : Int, |mn| < 2 ^ 53 → pixelCoord mn ext 0 = mn := by
    intro mn ext h
    simp only [pixelCoord, F64.add, F64.mul, F64.ofInt, mul_zero, toFloat64_zero, add_zero,
      toFloat64_intCast mn h, toInt_intCast]
  have hi : ∀ mn mx : Int, |mn| < 2 ^ 53 → |mx| < 2 ^ 53 → |mx - mn| < 2 ^ 53 →
      pixelCoord mn (mx - mn) 1 = mx := by
    intro mn mx h1 h2 h3
    have hsum : (mn : ℚ) + ((mx - mn : Int) : ℚ) = (mx : ℚ) := by push_cast; ring
    simp only [pixelCoord, F64.add, F64.mul, F64.ofInt, mul_one, toFloat64_intCast mn h1,
      toFloat64_intCast (mx - mn) h3, hsum, toFloat64_intCast mx h2, toInt_intCast]
  constructor
  · rw [mapBox_four, lo _ _ hx.1, lo _ _ hy.1]
    simp only [Rectangle.Dx, Rectangle.Dy] at hx hy ⊢
    rw [hi _ _ hx.1 hx.2.1 hx.2.2, hi _ _ hy.1 hy.2.1 hy.2.2]
  · obtain ⟨⟨a, b⟩, ⟨c, d⟩⟩ := bounds
    simp only at hwf
    simp [Rect, not_lt.mpr hwf.1, not_lt.mpr hwf.2]

/-- Witness of C4: the bounds with origin `(0, 0)`, width 200, height 100. -/
theorem full_box_maps_to_bounds_scenario :
    mapBox ⟨⟨0, 0⟩, ⟨200, 100⟩⟩ [0, 0, 1, 1] = .ok ⟨0, 0, 200, 100⟩ ∧
    Rect 0 0 200 100 = ⟨⟨0, 0⟩, ⟨200, 100⟩⟩ :=
  full_box_maps_to_bounds ⟨⟨0, 0⟩, ⟨200, 100⟩⟩
    (by simp [Rectangle.Dx])
    (by simp [Rectangle.Dy])
    (by decide)

/-! ## Caption text and caption colour -/

theorem roundHalfEven_nonneg (x : ℚ) (h : 0 ≤ x) : 0 ≤ roundHalfEven x := by
  have hf : 0 ≤ ⌊x⌋ := Int.floor_nonneg.mpr h
  unfold roundHalfEven
  split_ifs <;> omega

theorem roundToPrec_nonneg (p : Nat) (x : ℚ) (h : 0 ≤ x) : 0 ≤ roundToPrec p x := by
  unfold roundToPrec
  split_ifs with h0
  · exact le_refl _
  · apply mul_nonneg
    · exact_mod_cast roundHalfEven_nonneg _ (div_nonneg h (by positivity))
    · positivity

theorem fmtFixed0_of_nonneg (width : Nat) (v : ℚ) (h : 0 ≤ v) :
    fmtFixed0 width v
      = String.mk (List.replicate (width - (Nat.repr (roundHalfEven v).toNat).length) ' ')
        ++ Nat.repr (roundHalfEven v).toNat := by
  simp only [fmtFixed0, abs_of_nonneg h, if_neg (not_lt.mpr h)]

theorem F32_mul_hundred_half : F32.mul (1 / 2) 100 = 50 := by
  have := toFloat32_exact 50 50 0 (by norm_num) (by norm_num)
  rw [F32.mul]
  norm_num
  exact this

theorem fmtFixed0_three_fifty : fmtFixed0 3 50 = " 50" := by
  rw [fmtFixed0_of_nonneg 3 50 (by norm_num)]
  have : roundHalfEven (50 : ℚ) = 50 := by
    have := roundHalfEven_intCast 50
    simpa using this
  rw [this]
  decide

theorem mainCaption_half : mainCaption "person" (1 / 2) = "person ( 50%)" := by
  rw [mainCaption, F32_mul_hundred_half, fmtFixed0_three_fifty]
  decide

theorem mainOverlay_ok (cn : Colornames) (probabilities classes : List F32)
    (boxes : List (List F32)) (labels : List String) (bounds : Rectangle) (i : Nat)
    (c p : ℚ) (box : List F32) (pb : PixelBox) (colour : RGBA) (label : String)
    (hc : classes[i]? = some c) (hb : boxes[i]? = some box)
    (hpb : mapBox bounds box = .ok pb) (hcol : captionColour cn (toInt c) = .ok colour)
    (hl : sliceIndex labels (toInt c) = .ok label) (hp : probabilities[i]? = some p) :
    mainOverlay cn probabilities classes boxes labels bounds i
      = .ok ⟨pb, colour, mainCaption label p⟩ := by
  simp only [mainOverlay, sliceIndex_of_getElem? classes i c hc, ok_bind,
    sliceIndex_of_getElem? boxes i box hb, hpb, hcol, hl,
    sliceIndex_of_getElem? probabilities i p hp]
  rfl

theorem bind_eq_ok {α β : Type} (x : Except Panic α) (f : α → Except Panic β) (b : β)
    (h : (x >>= f) = .ok b) : ∃ a, x = .ok a ∧ f a = .ok b := by
  cases x with
  | error e => cases h
  | ok a => exact ⟨a, rfl, h⟩

/-- The values read by a successful iteration of the image loop of `main.go`. -/
theorem mainOverlay_inv (cn : Colornames) (probabilities classes : List F32)
    (boxes : List (List F32)) (labels : List String) (bounds : Rectangle) (i : Nat)
    (a : Overlay)
    (h : mainOverlay cn probabilities classes boxes labels bounds i = .ok a) :
    ∃ (c p : ℚ) (box : List F32) (label : String),
      classes[i]? = some c ∧ probabilities[i]? = some p ∧ boxes[i]? = some box ∧
      0 ≤ toInt c ∧ labels[(toInt c).toNat]? = some label ∧
      mapBox bounds box = .ok a.box ∧
      captionColour cn (toInt c) = .ok a.colour ∧
      a.caption = mainCaption label p := by
  unfold mainOverlay at h
  obtain ⟨c, hc, h⟩ := bind_eq_ok _ _ _ h
  obtain ⟨box, hb, h⟩ := bind_eq_ok _ _ _ h
  obtain ⟨pb, hpb, h⟩ := bind_eq_ok _ _ _ h
  obtain ⟨colour, hcol, h⟩ := bind_eq_ok _ _ _ h
  obtain ⟨label, hl, h⟩ := bind_eq_ok _ _ _ h
  obtain ⟨p, hp, h⟩ := bind_eq_ok _ _ _ h
  have ha : a = ⟨pb, colour, mainCaption label p⟩ := by
    injection h with h1
    exact h1.symm
  have hc' := (sliceIndex_eq_ok_iff classes i c).mp hc
  have hb' := (sliceIndex_eq_ok_iff boxes i box).mp hb
  have hp' := (sliceIndex_eq_ok_iff probabilities i p).mp hp
  have hl' := (sliceIndex_eq_ok_iff labels (toInt c) label).mp hl
  simp only [Int.toNat_ofNat] at hc' hb' hp'
  subst ha
  exact ⟨c, p, box, label, hc'.2, hp'.2, hb'.2, hl'.1, hl'.2, hpb, hcol, rfl⟩

theorem mapBox_eighths :
    mapBox ⟨⟨0, 0⟩, ⟨200, 100⟩⟩ [1 / 8, 1 / 4, 7 / 8, 3 / 4] = .ok ⟨50, 12, 150, 87⟩ := by
  rw [mapBox_four]
  have hx1 : pixelCoord 0 200 (1 / 4) = 50 :=
    pixelCoord_origin_eval 200 _ 50 0 50 (by norm_num) (by norm_num)
      (by norm_num) (by norm_num) (by norm_num) (by norm_num)
  have hy1 : pixelCoord 0 100 (1 / 8) = 12 :=
    pixelCoord_origin_eval 100 _ 25 (-1) 12 (by norm_num) (by norm_num)
      (by norm_num) (by norm_num) (by norm_num) (by norm_num)
  have hx2 : pixelCoord 0 200 (3 / 4) = 150 :=
    pixelCoord_origin_eval 200 _ 150 0 150 (by norm_num) (by norm_num)
      (by norm_num) (by norm_num) (by norm_num) (by norm_num)
  have hy2 : pixelCoord 0 100 (7 / 8) = 87 :=
    pixelCoord_origin_eval 100 _ 175 (-1) 87 (by norm_num) (by norm_num)
      (by norm_num) (by norm_num) (by norm_num) (by norm_num)
  simp only [Rectangle.Dx, Rectangle.Dy]
  norm_num [hx1, hy1, hx2, hy2]

theorem mainOverlay_example :
    mainOverlay colornamesHead [1 / 2, 3 / 10] [1, 0] [[1 / 8, 1 / 4, 7 / 8, 3 / 4], [0, 0, 1, 1]]
      ["background", "person"] ⟨⟨0, 0⟩, ⟨200, 100⟩⟩ 0
      = .ok ⟨⟨50, 12, 150, 87⟩, ⟨250, 235, 215, 255⟩, "person ( 50%)"⟩ := by
  have h1 : toInt (1 : ℚ) = 1 := by simp [toInt]
  rw [mainOverlay_ok colornamesHead _ _ _ _ _ 0 1 (1 / 2) [1 / 8, 1 / 4, 7 / 8, 3 / 4]
    ⟨50, 12, 150, 87⟩ ⟨250, 235, 215, 255⟩ "person" (by simp) (by simp) mapBox_eighths
    (by rw [h1]; rfl) (by rw [h1]; rfl) (by simp), mainCaption_half]

/-- C7 (counterexample): in `main.go` the detection with label `person` and
score `0.5` is captioned `person ( 50%)`, with a padding space before the
number, not `person (50%)`. -/
theorem main_caption_has_padding :
    mainOverlay colornamesHead [1 / 2, 3 / 10] [1, 0] [[1 / 8, 1 / 4, 7 / 8, 3 / 4], [0, 0, 1, 1]]
      ["background", "person"] ⟨⟨0, 0⟩, ⟨200, 100⟩⟩ 0
      = .ok ⟨⟨50, 12, 150, 87⟩, ⟨250, 235, 215, 255⟩, "person ( 50%)"⟩ ∧
    mainCaption "person" (1 / 2) ≠ "person (50%)" := by
  refine ⟨mainOverlay_example, ?_⟩
  rw [mainCaption_half]
  decide

/-- The values read by a successful iteration of the loop of `detect.go`. -/
theorem detectOverlay_inv (cn : Colornames) (probabilities classes : List F32)
    (boxes : List (List F32)) (labels : List String) (bounds : Rectangle) (i : Nat)
    (a : Overlay)
    (h : detectOverlay cn probabilities classes boxes labels bounds i = .ok a) :
    ∃ (c q : ℚ) (label : String),
      classes[i]? = some c ∧ 0 ≤ toInt c ∧ labels[(toInt c).toNat]? = some label ∧
      probabilities[(toInt c).toNat]? = some q ∧
      captionColour cn (toInt c) = .ok a.colour ∧
      a.caption = detectCaption label q := by
  unfold detectOverlay at h
  obtain ⟨c, hc, h⟩ := bind_eq_ok _ _ _ h
  obtain ⟨box, hb, h⟩ := bind_eq_ok _ _ _ h
  obtain ⟨pb, hpb, h⟩ := bind_eq_ok _ _ _ h
  obtain ⟨colour, hcol, h⟩ := bind_eq_ok _ _ _ h
  obtain ⟨label, hl, h⟩ := bind_eq_ok _ _ _ h
  obtain ⟨q, hq, h⟩ := bind_eq_ok _ _ _ h
  have ha : a = ⟨pb, colour, detectCaption label q⟩ := by
    injection h with h1
    exact h1.symm
  have hc' := (sliceIndex_eq_ok_iff classes i c).mp hc
  have hq' := (sliceIndex_eq_ok_iff probabilities (toInt c) q).mp hq
  have hl' := (sliceIndex_eq_ok_iff labels (toInt c) label).mp hl
  simp only [Int.toNat_ofNat] at hc'
  subst ha
  exact ⟨c, q, label, hc'.2, hl'.1, hl'.2, hq'.2, hcol, rfl⟩

/-- C7 (amended): in `main.go` the caption of drawn detection `i` is
`label ++ " (" ++ number ++ "%)"` with `label = labels[int(classes[i])]` and
`number` the `float32` product `scores[i] * 100` rounded to the nearest
integer (ties to even), in decimal, padded with spaces on the left to 3
characters; in `detect.go` the caption has the same shape with the label
`labels[int(classes[i])]` and a field of 2 characters. -/
theorem caption_text_is_padded_percentage (cn : Colornames)
    (probabilities classes : List F32) (boxes : List (List F32)) (labels : List String)
    (bounds : Rectangle) (i : Nat) :
    (∀ a : Overlay, mainOverlay cn probabilities classes boxes labels bounds i = .ok a →
      ∃ (c p : ℚ) (label : String),
        classes[i]? = some c ∧ probabilities[i]? = some p ∧
        0 ≤ toInt c ∧ labels[(toInt c).toNat]? = some label ∧
        a.caption = label ++ " (" ++ fmtFixed0 3 (toFloat32 (p * 100)) ++ "%)" ∧
        (0 ≤ p → fmtFixed0 3 (toFloat32 (p * 100))
          = String.mk (List.replicate
              (3 - (Nat.repr (roundHalfEven (toFloat32 (p * 100))).toNat).length) ' ')
            ++ Nat.repr (roundHalfEven (toFloat32 (p * 100))).toNat)) ∧
    (∀ a : Overlay, detectOverlay cn probabilities classes boxes labels bounds i = .ok a →
      ∃ (c q : ℚ) (label : String),
        classes[i]? = some c ∧ 0 ≤ toInt c ∧ labels[(toInt c).toNat]? = some label ∧
        a.caption = label ++ " (" ++ fmtFixed0 2 (toFloat32 (q * 100)) ++ "%)") := by
  constructor
  · intro a h
    obtain ⟨c, p, box, label, hc, hp, _, h0, hl, _, _, hcap⟩ :=
      mainOverlay_inv cn probabilities classes boxes labels bounds i a h
    refine ⟨c, p, label, hc, hp, h0, hl, hcap, ?_⟩
    intro hp0
    exact fmtFixed0_of_nonneg 3 _ (roundToPrec_nonneg 24 _ (by positivity))
  · intro a h
    obtain ⟨c, q, label, hc, h0, hl, _, _, hcap⟩ :=
      detectOverlay_inv cn probabilities classes boxes labels bounds i a h
    exact ⟨c, q, label, hc, h0, hl, hcap⟩

/-- Witness of C7 (amended): label `person`, score `0.5` in `main.go`. -/
theorem caption_text_scenario :
    mainOverlay colornamesHead [1 / 2, 3 / 10] [1, 0] [[1 / 8, 1 / 4, 7 / 8, 3 / 4], [0, 0, 1, 1]]
      ["background", "person"] ⟨⟨0, 0⟩, ⟨200, 100⟩⟩ 0
      = .ok ⟨⟨50, 12, 150, 87⟩, ⟨250, 235, 215, 255⟩, "person ( 50%)"⟩ ∧
    ∃ (c p : ℚ) (label : String),
      ([1, 0] : List ℚ)[0]? = some c ∧ ([1 / 2, 3 / 10] : List ℚ)[0]? = some p ∧
      "person ( 50%)" = label ++ " (" ++ fmtFixed0 3 (toFloat32 (p * 100)) ++ "%)" := by
  obtain ⟨c, p, label, hc, hp, _, _, hcap, _⟩ :=
    (caption_text_is_padded_percentage colornamesHead [1 / 2, 3 / 10] [1, 0]
      [[1 / 8, 1 / 4, 7 / 8, 3 / 4], [0, 0, 1, 1]] ["background", "person"]
      ⟨⟨0, 0⟩, ⟨200, 100⟩⟩ 0).1 _ mainOverlay_example
  exact ⟨mainOverlay_example, c, p, label, hc, hp, hcap⟩

/-- In `detect.go` the caption of detection 0 (score `0.5`, class 1) shows
the score stored at index 1, the class index: `person (25%)`. -/
theorem detect_caption_reads_score_at_class_index :
    detectOverlay colornamesHead [1 / 2, 1 / 4] [1, 0]
      [[1 / 8, 1 / 4, 7 / 8, 3 / 4], [0, 0, 1, 1]]
      ["background", "person"] ⟨⟨0, 0⟩, ⟨200, 100⟩⟩ 0
      = .ok ⟨⟨50, 12, 150, 87⟩, ⟨250, 235, 215, 255⟩, "person (25%)"⟩ := by
  have h1 : toInt (1 : ℚ) = 1 := by simp [toInt]
  have hm : F32.mul (1 / 4) 100 = 25 := by
    have := toFloat32_exact 25 25 0 (by norm_num) (by norm_num)
    rw [F32.mul]
    norm_num
    exact this
  have hf : fmtFixed0 2 25 = "25" := by
    rw [fmtFixed0_of_nonneg 2 25 (by norm_num)]
    have : roundHalfEven (25 : ℚ) = 25 := by
      have := roundHalfEven_intCast 25
      simpa using this
    rw [this]
    decide
  have hcap : detectCaption "person" (1 / 4) = "person (25%)" := by
    rw [detectCaption, hm, hf]
    decide
  have hq : sliceIndex ([1 / 2, 1 / 4] : List ℚ) 1 = .ok (1 / 4) := rfl
  have hcol : captionColour colornamesHead 1 = .ok ⟨250, 235, 215, 255⟩ := rfl
  have hl : sliceIndex ["background", "person"] 1 = .ok "person" := rfl
  simp only [detectOverlay, sliceIndex_of_getElem? ([1, 0] : List ℚ) 0 1 (by simp), ok_bind,
    sliceIndex_of_getElem? ([[1 / 8, 1 / 4, 7 / 8, 3 / 4], [0, 0, 1, 1]] : List (List ℚ)) 0
      [1 / 8, 1 / 4, 7 / 8, 3 / 4] (by simp), mapBox_eighths, h1, hq, hcol, hl, hcap]
  rfl

theorem toFloat32_0405 : toFloat32 (81 / 200) = 13589545 / 33554432 := by
  apply toFloat32_eval (81 / 200) _ (-2) 13589545
  · norm_num [abs_of_pos]
  · norm_num [abs_of_pos]
  · have := roundHalfEven_of_gt_half ((81 / 200 : ℚ) / 2 ^ ((-2 : Int) - 23)) 13589544
      (by norm_num) (by norm_num) (by norm_num)
    simpa using this
  · norm_num

/-- The percentage is rounded from the `float32` product: for the `float32`
score nearest to `0.405` the exact product `40.50000012` is nearer to 41,
the `float32` product is `40.5`, and the caption shows ` 40`. -/
theorem main_caption_rounds_float32_product :
    roundHalfEven (toFloat32 (81 / 200) * 100) = 41 ∧
    F32.mul (toFloat32 (81 / 200)) 100 = 81 / 2 ∧
    mainCaption "person" (toFloat32 (81 / 200)) = "person ( 40%)" := by
  have hmul : F32.mul (toFloat32 (81 / 200)) 100 = 81 / 2 := by
    rw [F32.mul, toFloat32_0405]
    apply toFloat32_eval _ _ 5 10616832
    · norm_num [abs_of_pos]
    · norm_num [abs_of_pos]
    · exact roundHalfEven_of_lt_half _ 10616832 (by norm_num) (by norm_num)
    · norm_num
  have hfmt : fmtFixed0 3 (81 / 2) = " 40" := by
    rw [fmtFixed0_of_nonneg 3 _ (by norm_num)]
    have : roundHalfEven (81 / 2 : ℚ) = 40 := by
      have := roundHalfEven_of_tie (81 / 2) 40 (by norm_num)
      simpa using this
    rw [this]
    decide
  refine ⟨?_, hmul, ?_⟩
  · rw [toFloat32_0405]
    have := roundHalfEven_of_gt_half ((13589545 / 33554432 : ℚ) * 100) 40
      (by norm_num) (by norm_num) (by norm_num)
    simpa using this
  · rw [mainCaption, hmul, hfmt]
    decide

/-- C9 (counterexample): the colour lookup takes no modulo: with the
3-entry table the class index 3 fails instead of wrapping to entry 0, and
for every table the class index equal to the table size fails. -/
theorem caption_colour_fails_at_table_size :
    captionColour colornamesHead 3 = .error (.indexOutOfRange 3 3) ∧
    captionColour colornamesHead 3
      ≠ .ok (colornamesHead.Map "aliceblue") ∧
    (∀ cn : Colornames, captionColour cn (cn.Names.length : Int)
      = .error (.indexOutOfRange cn.Names.length cn.Names.length)) := by
  refine ⟨rfl, ?_, ?_⟩
  · intro h
    have h3 : captionColour colornamesHead 3 = .error (.indexOutOfRange 3 3) := rfl
    rw [h3] at h
    cases h
  · intro cn
    simp only [captionColour, sliceIndex_out_of_range cn.Names _ (Or.inr (le_refl _)),
      error_bind]

/-- C9 (amended): for every class index `c` with `0 <= c < len(Names)` the
caption colour of both programs is `Map[Names[c]]`, the table entry at
position `c` itself; for `c >= len(Names)` the lookup panics with index out
of range. -/
theorem caption_colour_is_entry_at_index (cn : Colornames) (c : Int) :
    ((0 ≤ c ∧ c < (cn.Names.length : Int)) →
      ∃ name, cn.Names[c.toNat]? = some name ∧ captionColour cn c = .ok (cn.Map name)) ∧
    ((cn.Names.length : Int) ≤ c →
      captionColour cn c = .error (.indexOutOfRange c cn.Names.length)) ∧
    (∀ (probabilities classes : List F32) (boxes : List (List F32)) (labels : List String)
        (bounds : Rectangle) (i : Nat) (a : Overlay),
      (mainOverlay cn probabilities classes boxes labels bounds i = .ok a →
        ∃ x, classes[i]? = some x ∧ captionColour cn (toInt x) = .ok a.colour) ∧
      (detectOverlay cn probabilities classes boxes labels bounds i = .ok a →
        ∃ x, classes[i]? = some x ∧ captionColour cn (toInt x) = .ok a.colour)) := by
  refine ⟨?_, ?_, ?_⟩
  · rintro ⟨h0, h1⟩
    obtain ⟨name, hn, hok⟩ := sliceIndex_in_range cn.Names c h0 h1
    exact ⟨name, hn, by simp only [captionColour, hok, ok_bind]; rfl⟩
  · intro h
    simp only [captionColour, sliceIndex_out_of_range cn.Names c (Or.inr h), error_bind]
  · intro probabilities classes boxes labels bounds i a
    constructor
    · intro h
      obtain ⟨x, _, _, _, hx, _, _, _, _, _, hcol, _⟩ :=
        mainOverlay_inv cn probabilities classes boxes labels bounds i a h
      exact ⟨x, hx, hcol⟩
    · intro h
      obtain ⟨x, _, _, hx, _, _, _, hcol, _⟩ :=
        detectOverlay_inv cn probabilities classes boxes labels bounds i a h
      exact ⟨x, hx, hcol⟩

/-- Witness of C9 (amended): class index 1 in the 3-entry table. -/
theorem caption_colour_scenario :
    ((0 : Int) ≤ 1 ∧ (1 : Int) < (colornamesHead.Names.length : Int)) ∧
    (∃ name, colornamesHead.Names[(1 : Int).toNat]? = some name ∧
      captionColour colornamesHead 1 = .ok (colornamesHead.Map name)) ∧
    captionColour colornamesHead 1 = .ok ⟨250, 235, 215, 255⟩ :=
  ⟨⟨by decide, by decide⟩,
    (caption_colour_is_entry_at_index colornamesHead 1).1 ⟨by decide, by decide⟩, rfl⟩

/-! ## The rectangle stroke -/

theorem Set_Rect (img : ImageRGBA) (x y : Int) (c : RGBA) :
    (img.Set x y c).Rect = img.Rect := by
  unfold ImageRGBA.Set
  split_ifs <;> rfl

theorem Set_Pix (img : ImageRGBA) (x y : Int) (c : RGBA) (u v : Int) :
    (img.Set x y c).Pix u v
      = if (Point.mk x y).In img.Rect = true ∧ u = x ∧ v = y then c else img.Pix u v := by
  unfold ImageRGBA.Set
  by_cases h : (Point.mk x y).In img.Rect = true
  · simp [h]
  · simp [h]

theorem wrapInt64_of_mem (n : Int) (h1 : -2 ^ 63 ≤ n) (h2 : n < 2 ^ 63) :
    wrapInt64 n = n := by
  unfold wrapInt64
  omega

theorem wrapInt64_range (n : Int) : -2 ^ 63 ≤ wrapInt64 n ∧ wrapInt64 n ≤ maxInt64 := by
  unfold wrapInt64 maxInt64
  omega

/-- With the bound at `MaxInt64` the loop condition `v <= hi` never fails:
the loop returns for no fuel. -/
theorem countLoop_maxInt64 (step : ImageRGBA → Int → ImageRGBA) :
    ∀ (fuel : Nat) (v : Int) (img : ImageRGBA), v ≤ maxInt64 →
      countLoop step maxInt64 fuel v img = none := by
  intro fuel
  induction fuel with
  | zero => intro v img _; rfl
  | succ f ih =>
    intro v img hv
    simp only [countLoop, if_pos hv]
    exact ih _ _ (wrapInt64_range _).2

/-- A terminating run of `for v := lo; v <= hi; v++` with `hi < MaxInt64`:
the canvas keeps its bounds, a canvas point hit by the step of some `v` in
`lo..hi` takes the colour `c`, every other point keeps its colour. -/
theorem countLoop_spec (step : ImageRGBA → Int → ImageRGBA) (c : RGBA)
    (hit : Int → Int → Int → Prop) (hi : Int) (hhi : hi < maxInt64)
    (hR : ∀ img x, (step img x).Rect = img.Rect)
    (hhit : ∀ img x u v, (Point.mk u v).In img.Rect = true → hit x u v →
      (step img x).Pix u v = c)
    (hmiss : ∀ img x u v, ¬ ((Point.mk u v).In img.Rect = true ∧ hit x u v) →
      (step img x).Pix u v = img.Pix u v) (n : Nat) :
    ∀ (lo : Int) (img : ImageRGBA) (fuel : Nat), -2 ^ 63 ≤ lo → hi + 1 - lo ≤ n → n < fuel →
      ∃ out, countLoop step hi fuel lo img = some out ∧ out.Rect = img.Rect ∧
        (∀ u v, (Point.mk u v).In img.Rect = true →
          (∃ x, lo ≤ x ∧ x ≤ hi ∧ hit x u v) → out.Pix u v = c) ∧
        (∀ u v, ¬ ((Point.mk u v).In img.Rect = true ∧ ∃ x, lo ≤ x ∧ x ≤ hi ∧ hit x u v) →
          out.Pix u v = img.Pix u v) := by
  induction n with
  | zero =>
    intro lo img fuel _ hn hf
    obtain ⟨f, rfl⟩ : ∃ f, fuel = f + 1 := ⟨fuel - 1, by omega⟩
    have hlt : ¬ lo ≤ hi := by omega
    refine ⟨img, by simp only [countLoop, if_neg hlt], rfl, ?_, ?_⟩
    · rintro u v _ ⟨x, h1, h2, _⟩
      omega
    · intro u v _
      rfl
  | succ n ih =>
    intro lo img fuel hlo hn hf
    obtain ⟨f, rfl⟩ : ∃ f, fuel = f + 1 := ⟨fuel - 1, by omega⟩
    by_cases hle : lo ≤ hi
    · have hw : wrapInt64 (lo + 1) = lo + 1 := by
        apply wrapInt64_of_mem
        · omega
        · unfold maxInt64 at hhi; omega
      obtain ⟨out, hout, hRect, hc, hk⟩ :=
        ih (lo + 1) (step img lo) f (by omega) (by omega) (by omega)
      rw [hR] at hRect hc hk
      refine ⟨out, by simp only [countLoop, if_pos hle, hw]; exact hout, hRect, ?_, ?_⟩
      · rintro u v hin ⟨x, h1, h2, hx⟩
        by_cases hlater : ∃ x, lo + 1 ≤ x ∧ x ≤ hi ∧ hit x u v
        · exact hc u v hin hlater
        · have hxlo : x = lo := by
            by_contra hne
            exact hlater ⟨x, by omega, h2, hx⟩
          subst hxlo
          rw [hk u v (fun h => hlater h.2)]
          exact hhit img x u v hin hx
      · intro u v hno
        have h1 : ¬ ((Point.mk u v).In img.Rect = true ∧
            ∃ x, lo + 1 ≤ x ∧ x ≤ hi ∧ hit x u v) := by
          rintro ⟨hin, x, h1, h2, hx⟩
          exact hno ⟨hin, x, by omega, h2, hx⟩
        rw [hk u v h1]
        apply hmiss
        rintro ⟨hin, hx⟩
        exact hno ⟨hin, lo, le_refl _, hle, hx⟩
    · refine ⟨img, by simp only [countLoop, if_neg hle], rfl, ?_, ?_⟩
      · rintro u v _ ⟨x, h1, h2, _⟩
        omega
      · intro u v _
        rfl

/-- What a terminating `drawRect` leaves on the canvas, for a rectangle whose
`Max` is below `MaxInt64`. -/
theorem drawRect_spec (img : ImageRGBA) (r : Rectangle) (c : RGBA) (fuel : Nat)
    (hminx : -2 ^ 63 ≤ r.Min.X) (hminy : -2 ^ 63 ≤ r.Min.Y)
    (hmaxx : r.Max.X < maxInt64) (hmaxy : r.Max.Y < maxInt64)
    (hf0 : 0 < fuel)
    (hfx : r.Max.X + 1 - r.Min.X < fuel) (hfy : r.Max.Y + 1 - r.Min.Y < fuel) :
    ∃ out, drawRect fuel img r c = some out ∧ out.Rect = img.Rect ∧
      ∀ u v : Int,
        out.Pix u v
          = if (Point.mk u v).In img.Rect = true ∧
              ((r.Min.Y ≤ v ∧ v ≤ r.Max.Y ∧ (u = r.Min.X ∨ u = r.Max.X)) ∨
               (r.Min.X ≤ u ∧ u ≤ r.Max.X ∧ (v = r.Min.Y ∨ v = r.Max.Y))) then c
            else img.Pix u v := by
  obtain ⟨img1, h1, hR1, hc1, hk1⟩ :=
    countLoop_spec (fun im x => (im.Set x r.Min.Y c).Set x r.Max.Y c) c
      (fun x u v => u = x ∧ (v = r.Min.Y ∨ v = r.Max.Y)) r.Max.X hmaxx
      (by intro im x; simp only [Set_Rect])
      (by
        rintro im x u v hin ⟨rfl, hv⟩
        simp only [Set_Pix, Set_Rect]
        rcases hv with hv | hv
        · subst hv
          by_cases hb : r.Min.Y = r.Max.Y
          · simp [hin, hb ▸ hin]
          · simp [hin, hb]
        · subst hv
          simp [hin])
      (by
        intro im x u v hno
        simp only [Set_Pix, Set_Rect]
        have ha : ¬ ((Point.mk x r.Min.Y).In im.Rect = true ∧ u = x ∧ v = r.Min.Y) := by
          rintro ⟨h, rfl, rfl⟩
          exact hno ⟨h, rfl, Or.inl rfl⟩
        have hb : ¬ ((Point.mk x r.Max.Y).In im.Rect = true ∧ u = x ∧ v = r.Max.Y) := by
          rintro ⟨h, rfl, rfl⟩
          exact hno ⟨h, rfl, Or.inr rfl⟩
        rw [if_neg hb, if_neg ha])
      (r.Max.X + 1 - r.Min.X).toNat r.Min.X img fuel hminx (by omega) (by omega)
  obtain ⟨out, h2, hR2, hc2, hk2⟩ :=
    countLoop_spec (fun im y => (im.Set r.Min.X y c).Set r.Max.X y c) c
      (fun y u v => v = y ∧ (u = r.Min.X ∨ u = r.Max.X)) r.Max.Y hmaxy
      (by intro im y; simp only [Set_Rect])
      (by
        rintro im y u v hin ⟨rfl, hu⟩
        simp only [Set_Pix, Set_Rect]
        rcases hu with hu | hu
        · subst hu
          by_cases hb : r.Min.X = r.Max.X
          · simp [hin, hb ▸ hin]
          · simp [hin, hb]
        · subst hu
          simp [hin])
      (by
        intro im y u v hno
        simp only [Set_Pix, Set_Rect]
        have ha : ¬ ((Point.mk r.Min.X y).In im.Rect = true ∧ u = r.Min.X ∧ v = y) := by
          rintro ⟨h, rfl, rfl⟩
          exact hno ⟨h, rfl, Or.inl rfl⟩
        have hb : ¬ ((Point.mk r.Max.X y).In im.Rect = true ∧ u = r.Max.X ∧ v = y) := by
          rintro ⟨h, rfl, rfl⟩
          exact hno ⟨h, rfl, Or.inr rfl⟩
        rw [if_neg hb, if_neg ha])
      (r.Max.Y + 1 - r.Min.Y).toNat r.Min.Y img1 fuel hminy (by omega) (by omega)
  rw [hR1] at hR2 hc2 hk2
  refine ⟨out, by simp only [drawRect, h1, h2], hR2, ?_⟩
  intro u v
  by_cases hin : (Point.mk u v).In img.Rect = true
  · by_cases hA : r.Min.Y ≤ v ∧ v ≤ r.Max.Y ∧ (u = r.Min.X ∨ u = r.Max.X)
    · rw [if_pos ⟨hin, Or.inl hA⟩]
      exact hc2 u v hin ⟨v, hA.1, hA.2.1, rfl, hA.2.2⟩
    · have hnoA : ¬ ((Point.mk u v).In img.Rect = true ∧
          ∃ y, r.Min.Y ≤ y ∧ y ≤ r.Max.Y ∧ (v = y ∧ (u = r.Min.X ∨ u = r.Max.X))) := by
        rintro ⟨_, y, h1, h2, rfl, h3⟩
        exact hA ⟨h1, h2, h3⟩
      rw [hk2 u v hnoA]
      by_cases hB : r.Min.X ≤ u ∧ u ≤ r.Max.X ∧ (v = r.Min.Y ∨ v = r.Max.Y)
      · rw [if_pos ⟨hin, Or.inr hB⟩]
        exact hc1 u v hin ⟨u, hB.1, hB.2.1, rfl, hB.2.2⟩
      · have hnoB : ¬ ((Point.mk u v).In img.Rect = true ∧
            ∃ x, r.Min.X ≤ x ∧ x ≤ r.Max.X ∧ (u = x ∧ (v = r.Min.Y ∨ v = r.Max.Y))) := by
          rintro ⟨_, x, h1, h2, rfl, h3⟩
          exact hB ⟨h1, h2, h3⟩
        rw [hk1 u v hnoB, if_neg]
        rintro ⟨_, h | h⟩
        · exact hA h
        · exact hB h
  · rw [if_neg (fun h => hin h.1), hk2 u v (fun h => hin h.1), hk1 u v (fun h => hin h.1)]

/-- C8 (counterexample): with `x2 = MaxInt64` the loop
`for x := r.Min.X; x <= r.Max.X; x++` of `drawRect` never ends, because the
`int64` increment wraps around: on a 3x3 canvas the box
`image.Rect(0, 0, MaxInt64, 0)` gives no result for any fuel, and the same
holds on every canvas for every rectangle with `Max.X = MaxInt64`. -/
theorem drawRect_never_returns_at_maxInt64 :
    maxInt64 = 9223372036854775807 ∧
    (∀ fuel : Nat,
      drawRect fuel ⟨⟨⟨0, 0⟩, ⟨3, 3⟩⟩, fun _ _ => ⟨0, 0, 0, 255⟩⟩ (Rect 0 0 maxInt64 0)
        strokeColour = none) ∧
    (∀ (fuel : Nat) (img : ImageRGBA) (r : Rectangle) (c : RGBA),
      r.Max.X = maxInt64 → r.Min.X ≤ maxInt64 → drawRect fuel img r c = none) := by
  have hgen : ∀ (fuel : Nat) (img : ImageRGBA) (r : Rectangle) (c : RGBA),
      r.Max.X = maxInt64 → r.Min.X ≤ maxInt64 → drawRect fuel img r c = none := by
    intro fuel img r c hmax hmin
    simp only [drawRect, hmax, countLoop_maxInt64 _ fuel r.Min.X img hmin]
  refine ⟨by norm_num [maxInt64], ?_, hgen⟩
  intro fuel
  apply hgen
  · simp [Rect, maxInt64]
  · simp [Rect, maxInt64]

/-- C8 (amended): for `int64` coordinates `x1, y1, x2, y2` below `MaxInt64`
and every canvas, `drawRect` on `image.Rect(x1, y1, x2, y2)` returns (for
every fuel above the side lengths), keeps the bounds of the canvas, and sets
to the stroke colour exactly the canvas pixels `(x, y)` with
`min(x1,x2) <= x <= max(x1,x2)`, `min(y1,y2) <= y <= max(y1,y2)` and `x` in
`{x1, x2}` or `y` in `{y1, y2}`; every other pixel keeps its colour (border
points outside the canvas are dropped); with `x1 = x2` only pixels of the
column `x1` change, with `y1 = y2` only pixels of the row `y1`. -/
theorem drawRect_strokes_exactly_border (img : ImageRGBA) (x1 y1 x2 y2 : Int) (c : RGBA)
    (fuel : Nat)
    (hx1 : -2 ^ 63 ≤ x1 ∧ x1 < maxInt64) (hy1 : -2 ^ 63 ≤ y1 ∧ y1 < maxInt64)
    (hx2 : -2 ^ 63 ≤ x2 ∧ x2 < maxInt64) (hy2 : -2 ^ 63 ≤ y2 ∧ y2 < maxInt64)
    (hfuel : |x2 - x1| + 1 < (fuel : Int) ∧ |y2 - y1| + 1 < (fuel : Int)) :
    ∃ out : ImageRGBA,
      drawRect fuel img (Rect x1 y1 x2 y2) c = some out ∧
      out.Rect = img.Rect ∧
      (∀ x y : Int,
        out.Pix x y
          = if (Point.mk x y).In img.Rect = true ∧
              min x1 x2 ≤ x ∧ x ≤ max x1 x2 ∧ min y1 y2 ≤ y ∧ y ≤ max y1 y2 ∧
              (x = x1 ∨ x = x2 ∨ y = y1 ∨ y = y2) then c
            else img.Pix x y) ∧
      (x1 = x2 → ∀ x y : Int, x ≠ x1 → out.Pix x y = img.Pix x y) ∧
      (y1 = y2 → ∀ x y : Int, y ≠ y1 → out.Pix x y = img.Pix x y) := by
  have hminx : (Rect x1 y1 x2 y2).Min.X = min x1 x2 := by
    simp only [Rect]; split_ifs <;> omega
  have hmaxx : (Rect x1 y1 x2 y2).Max.X = max x1 x2 := by
    simp only [Rect]; split_ifs <;> omega
  have hminy : (Rect x1 y1 x2 y2).Min.Y = min y1 y2 := by
    simp only [Rect]; split_ifs <;> omega
  have hmaxy : (Rect x1 y1 x2 y2).Max.Y = max y1 y2 := by
    simp only [Rect]; split_ifs <;> omega
  have hax : |x2 - x1| = max x1 x2 - min x1 x2 := by
    rcases le_total x1 x2 with h | h
    · rw [abs_of_nonneg (by omega)]; omega
    · rw [abs_of_nonpos (by omega)]; omega
  have hay : |y2 - y1| = max y1 y2 - min y1 y2 := by
    rcases le_total y1 y2 with h | h
    · rw [abs_of_nonneg (by omega)]; omega
    · rw [abs_of_nonpos (by omega)]; omega
  obtain ⟨out, hout, hR, hp⟩ := drawRect_spec img (Rect x1 y1 x2 y2) c fuel
    (by rw [hminx]; omega) (by rw [hminy]; omega)
    (by rw [hmaxx]; omega) (by rw [hmaxy]; omega)
    (by have := abs_nonneg (x2 - x1); omega)
    (by rw [hmaxx, hminx]; omega) (by rw [hmaxy, hminy]; omega)
  have key : ∀ x y : Int,
      out.Pix x y
        = if (Point.mk x y).In img.Rect = true ∧
            min x1 x2 ≤ x ∧ x ≤ max x1 x2 ∧ min y1 y2 ≤ y ∧ y ≤ max y1 y2 ∧
            (x = x1 ∨ x = x2 ∨ y = y1 ∨ y = y2) then c
          else img.Pix x y := by
    intro x y
    rw [hp]
    apply if_congr _ rfl rfl
    apply and_congr_right
    intro _
    rw [hminx, hmaxx, hminy, hmaxy]
    omega
  refine ⟨out, hout, hR, key, ?_, ?_⟩
  · intro h x y hx
    rw [key]
    apply if_neg
    omega
  · intro h x y hy
    rw [key]
    apply if_neg
    omega

/-- Witness of C8 (amended): the box `(1, 1)-(3, 3)` stroked on a black 3x3
canvas with fuel 4: the corner `(1, 1)` takes the stroke colour, the
interior point `(2, 2)` and the border point `(3, 3)`, which lies outside
the canvas, keep their value. -/
theorem drawRect_scenario :
    (|(3 : Int) - 1| + 1 < ((4 : Nat) : Int) ∧ |(3 : Int) - 1| + 1 < ((4 : Nat) : Int)) ∧
    ∃ out : ImageRGBA,
      drawRect 4 ⟨⟨⟨0, 0⟩, ⟨3, 3⟩⟩, fun _ _ => ⟨0, 0, 0, 255⟩⟩ (Rect 1 1 3 3) strokeColour
        = some out ∧
      out.Pix 1 1 = strokeColour ∧
      out.Pix 2 2 = ⟨0, 0, 0, 255⟩ ∧
      out.Pix 3 3 = ⟨0, 0, 0, 255⟩ := by
  have hf : |(3 : Int) - 1| + 1 < ((4 : Nat) : Int) := by norm_num
  obtain ⟨out, hout, _, hp, _, _⟩ := drawRect_strokes_exactly_border
    ⟨⟨⟨0, 0⟩, ⟨3, 3⟩⟩, fun _ _ => ⟨0, 0, 0, 255⟩⟩ 1 1 3 3 strokeColour 4
    (by norm_num [maxInt64]) (by norm_num [maxInt64])
    (by norm_num [maxInt64]) (by norm_num [maxInt64]) ⟨hf, hf⟩
  refine ⟨⟨hf, hf⟩, out, hout, ?_, ?_, ?_⟩
  · rw [hp 1 1]
    apply if_pos
    decide
  · rw [hp 2 2]
    apply if_neg
    decide
  · rw [hp 3 3]
    apply if_neg
    decide

/-! ## The bodies of the image loops -/

/-- An iteration of the image loop of `main.go` that returns a canvas has
computed the values of `mainOverlay`, stroked their box with `drawRect` and
drawn their caption at the top-left corner. -/
theorem imageBody_returns (drawString : ImageRGBA → Point → RGBA → String → ImageRGBA)
    (cn : Colornames) (fuel : Nat) (probabilities classes : List F32)
    (boxes : List (List F32)) (labels : List String) (bounds : Rectangle)
    (i : Nat) (canvas out : ImageRGBA)
    (h : imageBody drawString cn fuel probabilities classes boxes labels bounds i canvas
      = some (.ok out)) :
    ∃ (a : Overlay) (cv : ImageRGBA),
      mainOverlay cn probabilities classes boxes labels bounds i = .ok a ∧
      drawRect fuel canvas (Rect a.box.x1 a.box.y1 a.box.x2 a.box.y2) strokeColour = some cv ∧
      out = drawString cv (Pt a.box.x1 a.box.y1) a.colour a.caption := by
  unfold imageBody at h
  unfold mainOverlay
  cases hc : sliceIndex classes i with
  | error e => simp [hc, error_bind] at h
  | ok c =>
    cases hb : sliceIndex boxes i with
    | error e => simp [hc, hb, ok_bind, error_bind] at h
    | ok box =>
      cases hm : mapBox bounds box with
      | error e => simp [hc, hb, hm, ok_bind, error_bind] at h
      | ok pb =>
        simp only [hc, hb, hm, ok_bind] at h ⊢
        have h' : (match drawRect fuel canvas (Rect pb.x1 pb.y1 pb.x2 pb.y2) strokeColour with
            | none => none
            | some cv => some (do
                let colour ← captionColour cn (toInt c)
                let label ← sliceIndex labels (toInt c)
                let p ← sliceIndex probabilities i
                pure (drawString cv (Pt pb.x1 pb.y1) colour (mainCaption label p))))
            = some (Except.ok out) := h
        cases hd : drawRect fuel canvas (Rect pb.x1 pb.y1 pb.x2 pb.y2) strokeColour with
        | none => simp [hd] at h'
        | some cv =>
          simp only [hd] at h'
          cases hcol : captionColour cn (toInt c) with
          | error e => simp [hcol, error_bind] at h'
          | ok colour =>
            cases hl : sliceIndex labels (toInt c) with
            | error e => simp [hcol, hl, ok_bind, error_bind] at h'
            | ok label =>
              cases hp : sliceIndex probabilities i with
              | error e => simp [hcol, hl, hp, ok_bind, error_bind] at h'
              | ok p =>
                simp only [hcol, hl, hp, ok_bind] at h'
                refine ⟨⟨pb, colour, mainCaption label p⟩, cv, rfl, hd, ?_⟩
                injection h' with h1
                injection h1 with h2
                exact h2.symm

/-- An iteration of the loop of `detect.go` that returns a canvas has
computed the values of `detectOverlay`, stroked their box with `drawRect` and
drawn their caption at the top-left corner. -/
theorem detectBody_returns (drawString : ImageRGBA → Point → RGBA → String → ImageRGBA)
    (cn : Colornames) (fuel : Nat) (probabilities classes : List F32)
    (boxes : List (List F32)) (labels : List String) (bounds : Rectangle)
    (i : Nat) (canvas out : ImageRGBA)
    (h : detectBody drawString cn fuel probabilities classes boxes labels bounds i canvas
      = some (.ok out)) :
    ∃ (a : Overlay) (cv : ImageRGBA),
      detectOverlay cn probabilities classes boxes labels bounds i = .ok a ∧
      drawRect fuel canvas (Rect a.box.x1 a.box.y1 a.box.x2 a.box.y2) strokeColour = some cv ∧
      out = drawString cv (Pt a.box.x1 a.box.y1) a.colour a.caption := by
  unfold detectBody at h
  unfold detectOverlay
  cases hc : sliceIndex classes i with
  | error e => simp [hc, error_bind] at h
  | ok c =>
    cases hb : sliceIndex boxes i with
    | error e => simp [hc, hb, ok_bind, error_bind] at h
    | ok box =>
      cases hm : mapBox bounds box with
      | error e => simp [hc, hb, hm, ok_bind, error_bind] at h
      | ok pb =>
        simp only [hc, hb, hm, ok_bind] at h ⊢
        have h' : (match drawRect fuel canvas (Rect pb.x1 pb.y1 pb.x2 pb.y2) strokeColour with
            | none => none
            | some cv => some (do
                let colour ← captionColour cn (toInt c)
                let label ← sliceIndex labels (toInt c)
                let p ← sliceIndex probabilities (toInt c)
                pure (drawString cv (Pt pb.x1 pb.y1) colour (detectCaption label p))))
            = some (Except.ok out) := h
        cases hd : drawRect fuel canvas (Rect pb.x1 pb.y1 pb.x2 pb.y2) strokeColour with
        | none => simp [hd] at h'
        | some cv =>
          simp only [hd] at h'
          cases hcol : captionColour cn (toInt c) with
          | error e => simp [hcol, error_bind] at h'
          | ok colour =>
            cases hl : sliceIndex labels (toInt c) with
            | error e => simp [hcol, hl, ok_bind, error_bind] at h'
            | ok label =>
              cases hp : sliceIndex probabilities (toInt c) with
              | error e => simp [hcol, hl, hp, ok_bind, error_bind] at h'
              | ok p =>
                simp only [hcol, hl, hp, ok_bind] at h'
                refine ⟨⟨pb, colour, detectCaption label p⟩, cv, rfl, hd, ?_⟩
                injection h' with h1
                injection h1 with h2
                exact h2.symm

end ObjectDetect
